import Mathlib

set_option maxRecDepth 100000

/-!
Verification of the Drizzle-Generator schema codec and diff engine.

Shallow embedding of the TypeScript source:
* `src/utils` — `SnakeCase`, `PascalCase`, `TypeMap`, `addImportToMap` / `ImportManager`;
* `src/generators` — `ColumnGenerator`, `EnumGenerator`, `HelperGenerator`, `TableGenerator`;
* `SchemaReader` — `parseColumnDefinition`, `parseColumnType`, `parseEnumContent`,
  `parseTableContent` and friends (the hand-rolled regex parsers are embedded as
  recursive scanners with JS first-match semantics);
* `SchemaChangeDetector` — `compareSchemas`, `applySafeChanges` and the per-kind
  comparison functions.

Strings are modelled as Lean `String`s; the regex-based decoding operates on
`List Char` with explicit first-occurrence scanning, mirroring the JS engine's
left-to-right search.
-/

/-! ### JS string primitives -/

/-- JS word character class `\w` (ASCII letters, digits, underscore). -/
def wchar (c : Char) : Bool := c.isAlphanum || c = '_'

/-- Literal prefix test on character lists (JS `String.startsWith`, regex literals). -/
def isPre : List Char → List Char → Bool
  | [], _ => true
  | _ :: _, [] => false
  | a :: as, b :: bs => if a = b then isPre as bs else false

/-- First-occurrence substring containment (JS `String.includes`). -/
def containsSub (p s : List Char) : Bool :=
  isPre p s ||
    match s with
    | [] => false
    | _ :: t => containsSub p t

/-- Scan left to right, trying a matcher on every suffix; first success wins
(JS regex first-match search). -/
def scanFirst {α : Type} (f : List Char → Option α) : List Char → Option α
  | [] => f []
  | s@(_ :: t) =>
    match f s with
    | some r => some r
    | none => scanFirst f t

/-- JS `String.prototype.toLowerCase` (ASCII). -/
def jsToLower (s : String) : String := ⟨s.data.map Char.toLower⟩

/-- JS `String.prototype.trim` on a character list. -/
def trimChars (s : List Char) : List Char :=
  ((s.dropWhile Char.isWhitespace).reverse.dropWhile Char.isWhitespace).reverse

/-- JS `String.prototype.trim`. -/
def jsTrim (s : String) : String := ⟨trimChars s.data⟩

/-- `replace(/,$/, "")`: strip a single trailing comma. -/
def stripTrailingComma (s : List Char) : List Char :=
  if s.getLast? = some ',' then s.dropLast else s

/-- `replace(/,+$/, "")`: strip every trailing comma. -/
def stripTrailingCommas (s : List Char) : List Char :=
  (s.reverse.dropWhile (· = ',')).reverse

/-- `parseInt` on an all-digit string. -/
def parseDigits (s : List Char) : Nat :=
  s.foldl (fun a c => a * 10 + (c.toNat - 48)) 0

/-- Test for `/^\d+$/`. -/
def allDigits (s : List Char) : Bool := !s.isEmpty && s.all Char.isDigit

/-- Split a character list at every occurrence of one character
(JS `String.split` with a one-character separator string). -/
def splitOnChar (sep : Char) : List Char → List (List Char)
  | [] => [[]]
  | c :: t =>
    let r := splitOnChar sep t
    if c = sep then [] :: r
    else
      match r with
      | [] => [[c]]
      | h :: hs => (c :: h) :: hs

mutual

/-- `split(/[_-]+/)` (collecting a word): piece accumulation state. -/
def splitSepRunsWord (acc : List Char) : List Char → List (List Char)
  | [] => [acc.reverse]
  | c :: t =>
    if c = '_' || c = '-' then acc.reverse :: splitSepRunsRun t
    else splitSepRunsWord (c :: acc) t

/-- `split(/[_-]+/)` (inside a separator run): skip the rest of the run. -/
def splitSepRunsRun : List Char → List (List Char)
  | [] => [[]]
  | c :: t =>
    if c = '_' || c = '-' then splitSepRunsRun t
    else splitSepRunsWord [c] t

end

/-- JS `value.split(/[_-]+/)`: split on maximal runs of underscores and hyphens,
keeping empty edge pieces. -/
def splitSepRuns (s : List Char) : List (List Char) := splitSepRunsWord [] s

/-! ### `src/utils` -/

/-- `src/utils/SnakeCase.ts` core: `replace(/([A-Z])/g, (m,p1,offset) =>
(offset > 0 ? "_" : "") + p1.toLowerCase())`. -/
def upperToSnake (i : Nat) : List Char → List Char
  | [] => []
  | c :: t =>
    (if c.isUpper then (if i > 0 then ['_', c.toLower] else [c.toLower]) else [c]) ++
      upperToSnake (i + 1) t

/-- `SnakeCase`: camelCase/PascalCase to snake_case (`src/utils/SnakeCase.ts`). -/
def SnakeCase (str : String) : String :=
  if str.data.isEmpty then "" else ⟨upperToSnake 0 str.data⟩

/-- One word of `PascalCase`: `charAt(0).toUpperCase() + slice(1).toLowerCase()`. -/
def capitalizeWord : List Char → List Char
  | [] => []
  | c :: t => c.toUpper :: t.map Char.toLower

/-- `PascalCase` (`src/utils/PascalCase.ts`): split on `[_-]+`, then per piece
split on single spaces, capitalize each word, re-join with spaces, join pieces. -/
def PascalCase (value : String) : String :=
  ⟨List.intercalate []
    ((splitSepRuns value.data).map
      (fun piece => List.intercalate [' '] ((splitOnChar ' ' piece).map capitalizeWord)))⟩

/-- One `[_-]`-separated piece of an enum value: a letter followed by
alphanumerics. -/
def segOk : List Char → Bool
  | [] => false
  | c :: t => c.isAlpha && t.all Char.isAlphanum

/-- Every underscore-separated piece of the value is a letter-initial
alphanumeric word (so no hyphens, double/leading/trailing underscores,
spaces, quotes or brackets appear). -/
def snakeSegsOk (v : String) : Bool :=
  (splitOnChar '_' v.data).all segOk

/-- `TypeMap` (`src/utils`): JSON column types to Drizzle pg-core constructors. -/
def TypeMap : String → Option String
  | "serial" => some "serial"
  | "string" => some "varchar"
  | "text" => some "text"
  | "number" => some "integer"
  | "bigint" => some "bigint"
  | "boolean" => some "boolean"
  | "date" => some "timestamp"
  | "json" => some "jsonb"
  | "uuid" => some "uuid"
  | "enum" => some "pgEnum"
  | _ => none

/-- Import map: import path to list of imported names, in insertion order
(`ImportMap` in `src/utils/AddImport.ts`). -/
abbrev ImportMap := List (String × List String)

/-- `addImportToMap`: create the path entry if missing, append the name if new. -/
def addImportToMap (imports : ImportMap) (importPath importName : String) : ImportMap :=
  if imports.any (fun e => e.1 = importPath) then
    imports.map (fun e =>
      if e.1 = importPath then
        (e.1, if importName ∈ e.2 then e.2 else e.2 ++ [importName])
      else e)
  else imports ++ [(importPath, [importName])]

/-- `ImportManager.addImports`: add several names from one path. -/
def addImportsToMap (imports : ImportMap) (importPath : String)
    (importNames : List String) : ImportMap :=
  importNames.foldl (fun m n => addImportToMap m importPath n) imports

/-- `mergeImportMaps` / `ImportManager.merge`. -/
def mergeImportMaps (target source : ImportMap) : ImportMap :=
  source.foldl (fun m e => addImportsToMap m e.1 e.2) target

/-- Membership in an import map (`ImportManager.hasImport`). -/
def hasImport (imports : ImportMap) (importPath importName : String) : Bool :=
  imports.any (fun e => e.1 = importPath && importName ∈ e.2)

/-- `[...new Set(list)]`: deduplicate keeping first occurrences. -/
def dedupKeepFirst : List String → List String
  | [] => []
  | x :: t => x :: (dedupKeepFirst t).filter (· ≠ x)

/-! ### Data model (`src/definitions`) -/

/-- `ReferenceDefinition`: a foreign-key target. -/
structure ReferenceDefinition where
  table : String
  column : String
deriving DecidableEq, Repr

/-- A JS `string | number | boolean` default value. -/
inductive DefaultValue where
  | str (s : String)
  | num (n : Int)
  | bool (b : Bool)
deriving DecidableEq, Repr

/-- `ColumnOptions` (`src/definitions/ColumnsOptions.ts`); `none` is an absent key. -/
structure ColumnOptions where
  notNull : Option Bool := none
  primaryKey : Option Bool := none
  default : Option DefaultValue := none
  length : Option Nat := none
  enumValues : Option String := none
  references : Option ReferenceDefinition := none
deriving DecidableEq, Repr

/-- `ColumnDefinition` (`src/definitions/ColumnDefinition.ts`). -/
structure ColumnDefinition where
  name : String
  type : Option String := none
  options : Option ColumnOptions := none
deriving DecidableEq, Repr

/-- `EnumDefinition`. -/
structure EnumDefinition where
  name : String
  values : List String
deriving DecidableEq, Repr

/-- `HelperDefinition`. -/
structure HelperDefinition where
  name : String
  columns : List ColumnDefinition
deriving DecidableEq, Repr

/-- `TableDefinition` (`src/definitions`, `part_009`). -/
structure TableDefinition where
  name : String
  dbName : Option String := none
  columns : List ColumnDefinition := []
  helperReferences : Option (List String) := none
  compositePrimaryKey : Option (List String) := none
deriving DecidableEq, Repr

/-- JS truthiness of an optional string (absent or empty is falsy). -/
def strTruthy : Option String → Bool
  | none => false
  | some s => !s.data.isEmpty

/-- JS truthiness of an optional boolean. -/
def boolTruthy : Option Bool → Bool
  | some true => true
  | _ => false

/-- JS truthiness of an optional number (absent or zero is falsy). -/
def natTruthy : Option Nat → Bool
  | none => false
  | some n => n ≠ 0

/-! ### `ColumnGenerator` (`src/generators/ColumnGenerator.ts`) -/

/-- `ColumnGeneratorResult`. -/
structure ColumnGeneratorResult where
  column : String
  imports : ImportMap
  tables : List String
  error : Option String := none
deriving DecidableEq, Repr

/-- Type inference at the head of `ColumnGenerator`: a falsy `type` falls back
to `"enum"` when `options.enumValues` is truthy. -/
def inferColumnType (t : Option String) (options : ColumnOptions) : Option String :=
  if strTruthy t then t
  else if strTruthy options.enumValues then some "enum" else none

/-- Rendering of `options.default` inside `ColumnGenerator`, together with the
`sql` import it may add. Mirrors the string/number/boolean cases of the source. -/
def renderDefaultValue (isEnum : Bool) : DefaultValue → String × Bool
  | .bool b => (if b then "true" else "false", false)
  | .num n => (toString n, false)
  | .str s =>
    if s = "sql.now()" then ("sql`now()`", true)
    else if isPre "sql.".data s.data then
      (match scanSqlCall s.data with
       | some f => "sql`" ++ f ++ "()`"
       | none => s, true)
    else if !containsSub "(".data s.data && !containsSub ".".data s.data &&
        !containsSub "`".data s.data then
      (if isEnum then "'" ++ PascalCase s ++ "'" else "'" ++ s ++ "'", false)
    else (s, false)
where
  /-- `replace(/^sql\.(\w+)\(\)$/, ...)`: full-string match of `sql.<fn>()`. -/
  scanSqlCall (s : List Char) : Option String :=
    if isPre "sql.".data s then
      let r := s.drop 4
      let f := r.takeWhile wchar
      if f.isEmpty then none
      else if r.drop f.length = "()".data then some ⟨f⟩ else none
    else none

/-- `ColumnGenerator`: one column definition to Drizzle code, imports and
referenced tables (faithful to `src/generators/ColumnGenerator.ts`). -/
def ColumnGenerator (definition : ColumnDefinition) : ColumnGeneratorResult :=
  let name := definition.name
  let options := definition.options.getD {}
  match inferColumnType definition.type options with
  | none =>
    { column := "", imports := [], tables := [],
      error := some ("Type is required for column '" ++ name ++
        "'. Provide either 'type' property or 'enumValues' in options.") }
  | some inferredType =>
    match TypeMap (jsToLower inferredType) with
    | none =>
      { column := "", imports := [], tables := [],
        error := some ("Unsupported type '" ++ inferredType ++ "' for column '" ++
          name ++ "'.") }
    | some drizzleFunc =>
      let isEnum := jsToLower inferredType = "enum"
      let imports0 : ImportMap :=
        if isEnum then [] else addImportToMap [] "drizzle-orm/pg-core" drizzleFunc
      -- varchar length argument / enum constructor selection
      let enumCol := isEnum && strTruthy options.enumValues
      let ev := (options.enumValues).getD ""
      let args : List String :=
        if drizzleFunc = "varchar" && natTruthy options.length then
          ["'" ++ name ++ "'",
           "\x7b length: " ++ toString ((options.length).getD 255) ++ " \x7d"]
        else ["'" ++ name ++ "'"]
      let imports1 :=
        if enumCol then addImportToMap imports0 "../enums/index.js" ev else imports0
      let call :=
        if enumCol then name ++ ": " ++ ev ++ "(" ++ String.intercalate ", " args
        else name ++ ": " ++ drizzleFunc ++ "(" ++ String.intercalate ", " args
      let code1 := call ++ ")"
      let code2 := if boolTruthy options.primaryKey then code1 ++ ".primaryKey()" else code1
      let code3 := if boolTruthy options.notNull then code2 ++ ".notNull()" else code2
      let (code4, imports2) :=
        match options.default with
        | none => (code3, imports1)
        | some dv =>
          let (rendered, needsSql) := renderDefaultValue isEnum dv
          (code3 ++ ".default(" ++ rendered ++ ")",
           if needsSql then addImportToMap imports1 "drizzle-orm" "sql" else imports1)
      let (code5, imports3, tables) :=
        match options.references with
        | none => (code4, imports2, ([] : List String))
        | some r =>
          (code4 ++ ".references(() => " ++ r.table ++ "." ++ r.column ++ ")",
           addImportToMap imports2 "../tables/index.js" r.table, [r.table])
      { column := code5 ++ ",", imports := imports3,
        tables := dedupKeepFirst tables, error := none }

-- Sanity checks against the repository's own unit tests.
example :
    ColumnGenerator
      { name := "id", type := some "serial",
        options := some { primaryKey := some true } } =
    { column := "id: serial('id').primaryKey(),",
      imports := [("drizzle-orm/pg-core", ["serial"])], tables := [], error := none } := by
  decide

example :
    ColumnGenerator
      { name := "status",
        options := some { enumValues := some "UserStatus", default := some (.str "pending") } } =
    { column := "status: UserStatus('status').default('Pending'),",
      imports := [("../enums/index.js", ["UserStatus"])], tables := [], error := none } := by
  decide

example :
    ColumnGenerator
      { name := "userId", type := some "number",
        options := some { references := some { table := "users", column := "id" } } } =
    { column := "userId: integer('userId').references(() => users.id),",
      imports := [("drizzle-orm/pg-core", ["integer"]), ("../tables/index.js", ["users"])],
      tables := ["users"], error := none } := by
  decide

example :
    ColumnGenerator
      { name := "createdAt", type := some "date",
        options := some { notNull := some true, default := some (.str "sql.now()") } } =
    { column := "createdAt: timestamp('createdAt').notNull().default(sql`now()`),",
      imports := [("drizzle-orm/pg-core", ["timestamp"]), ("drizzle-orm", ["sql"])],
      tables := [], error := none } := by
  decide

example :
    ColumnGenerator
      { name := "name", type := some "string",
        options := some { length := some 255, notNull := some true } } =
    { column := "name: varchar('name', \x7b length: 255 \x7d).notNull(),",
      imports := [("drizzle-orm/pg-core", ["varchar"])], tables := [], error := none } := by
  decide

/-! ### `SchemaReader.parseColumnDefinition` / `parseColumnType` (decode) -/

/-- Backtracking `\s*(.+)` tail: prefer consuming whitespace, else match the
rest of the line (at least one non-newline character). -/
def wsThenRest : List Char → Option (List Char)
  | [] => none
  | c :: t =>
    match (if c.isWhitespace then wsThenRest t else none) with
    | some r => some r
    | none =>
      if c = '\n' then none else some ((c :: t).takeWhile (· ≠ '\n'))

/-- `/(\w+):\s*(.+)/` at one position: name, colon, then the definition text. -/
def matchNameColonAt (s : List Char) : Option (List Char × List Char) :=
  let n := s.takeWhile wchar
  if n.isEmpty then none
  else
    match s.drop n.length with
    | ':' :: r => (wsThenRest r).map (fun d => (n, d))
    | _ => none

/-- `/^(\w+)\(/`: anchored leading identifier followed by an opening paren. -/
def matchLeadingIdentParen (s : List Char) : Option (List Char) :=
  let n := s.takeWhile wchar
  if n.isEmpty then none
  else if (s.drop n.length).head? = some '(' then some n else none

/-- `/\.default\(([^)]+)\)/` at one position. -/
def matchDefaultAt (s : List Char) : Option (List Char) :=
  if isPre ".default(".data s then
    let r := s.drop 9
    let v := r.takeWhile (· ≠ ')')
    if v.isEmpty then none
    else if (r.drop v.length).head? = some ')' then some v else none
  else none

/-- `/\.default\('([^']+)'\)/` at one position (enum columns). -/
def matchEnumDefaultAt (s : List Char) : Option (List Char) :=
  if isPre ".default('".data s then
    let r := s.drop 10
    let v := r.takeWhile (· ≠ '\'')
    if v.isEmpty then none
    else if isPre "')".data (r.drop v.length) then some v else none
  else none

/-- `/\{ length: (\d+) \}/` at one position. -/
def matchLengthAt (s : List Char) : Option (List Char) :=
  if isPre "\x7b length: ".data s then
    let r := s.drop 10
    let d := r.takeWhile Char.isDigit
    if d.isEmpty then none
    else if isPre " \x7d".data (r.drop d.length) then some d else none
  else none

/-- `/sql`([^`]+)`/` at one position. -/
def matchSqlTickAt (s : List Char) : Option (List Char) :=
  if isPre "sql`".data s then
    let r := s.drop 4
    let v := r.takeWhile (· ≠ '`')
    if v.isEmpty then none
    else if (r.drop v.length).head? = some '`' then some v else none
  else none

/-- `/\.references\(\(\) => (\w+)\.(\w+)\)/` at one position. -/
def matchRefsAt (s : List Char) : Option (List Char × List Char) :=
  if isPre ".references(() => ".data s then
    let r := s.drop 18
    let t := r.takeWhile wchar
    if t.isEmpty then none
    else
      match r.drop t.length with
      | '.' :: r2 =>
        let c := r2.takeWhile wchar
        if c.isEmpty then none
        else if (r2.drop c.length).head? = some ')' then some (t, c) else none
      | _ => none
  else none

/-- The local reverse `typeMap` of `parseColumnType`, in object-entry order. -/
def drizzleTypeEntries : List (String × String) :=
  [("serial", "serial"), ("varchar", "string"), ("text", "text"),
   ("integer", "number"), ("bigint", "bigint"), ("boolean", "boolean"),
   ("timestamp", "date"), ("jsonb", "json"), ("uuid", "uuid")]

/-- Key lookup in the reverse `typeMap`. -/
def reverseTypeLookup (k : String) : Option String :=
  (drizzleTypeEntries.find? (fun e => e.1 = k)).map (·.2)

/-- `Object.keys(options).length === 0` for decoded column options. -/
def ColumnOptions.isEmptyObj (o : ColumnOptions) : Bool :=
  o.notNull.isNone && o.primaryKey.isNone && o.default.isNone &&
    o.length.isNone && o.enumValues.isNone && o.references.isNone

/-- The non-enum path of `SchemaReader.parseColumnType`. -/
def parseRegularColumnType (definition : List Char) : Option String × ColumnOptions :=
  let type :=
    (drizzleTypeEntries.find? (fun e => isPre (e.1 ++ "(").data definition)).map (·.2)
  let o0 : ColumnOptions := {}
  let o1 :=
    if containsSub "\x7b length:".data definition then
      match scanFirst matchLengthAt definition with
      | some d => { o0 with length := some (parseDigits d) }
      | none => o0
    else o0
  let o2 :=
    if containsSub ".primaryKey()".data definition then
      { o1 with primaryKey := some true }
    else o1
  let o3 :=
    if containsSub ".notNull()".data definition then { o2 with notNull := some true } else o2
  let o4 :=
    if containsSub ".default(".data definition then
      match scanFirst matchDefaultAt definition with
      | some dv =>
        if dv = "true".data then { o3 with default := some (.bool true) }
        else if dv = "false".data then { o3 with default := some (.bool false) }
        else if allDigits dv then { o3 with default := some (.num (parseDigits dv)) }
        else if containsSub "sql`".data dv then
          match scanFirst matchSqlTickAt dv with
          | some f => { o3 with default := some (.str ("sql." ++ (⟨f⟩ : String) ++ "()")) }
          | none => o3
        else { o3 with default := some (.str ⟨dv.filter (· ≠ '\'')⟩) }
      | none => o3
    else o3
  let o5 :=
    if containsSub ".references(".data definition then
      match scanFirst matchRefsAt definition with
      | some r => { o4 with references := some { table := ⟨r.1⟩, column := ⟨r.2⟩ } }
      | none => o4
    else o4
  (type, o5)

/-- `SchemaReader.parseColumnType`: enum detection first, then the regular path. -/
def parseColumnType (definition : List Char) : Option String × ColumnOptions :=
  match matchLeadingIdentParen definition with
  | some ident =>
    if (reverseTypeLookup ⟨ident⟩).isNone then
      let o1 : ColumnOptions := { enumValues := some ⟨ident⟩ }
      let o2 :=
        if containsSub ".default(".data definition then
          match scanFirst matchEnumDefaultAt definition with
          | some v => { o1 with default := some (.str ⟨v.map Char.toLower⟩) }
          | none => o1
        else o1
      let o3 :=
        if containsSub ".notNull()".data definition then { o2 with notNull := some true } else o2
      (none, o3)
    else parseRegularColumnType definition
  | none => parseRegularColumnType definition

/-- `SchemaReader.parseColumnDefinition`: one declaration line to a column. -/
def parseColumnDefinition (line : List Char) : Option ColumnDefinition :=
  let cleanLine := stripTrailingComma line
  match scanFirst matchNameColonAt cleanLine with
  | none => none
  | some (n, d) =>
    let r := parseColumnType d
    some { name := ⟨n⟩,
           type := if strTruthy r.1 then r.1 else none,
           options := if r.2.isEmptyObj then none else some r.2 }

-- Decode sanity checks (values as the repository's tests observe them).
example :
    parseColumnDefinition "name: varchar('name', \x7b length: 255 \x7d).notNull(),".data =
    some { name := "name", type := some "string",
           options := some { notNull := some true, length := some 255 } } := by
  decide

example :
    parseColumnDefinition "status: UserStatus('status').default('Pending'),".data =
    some { name := "status",
           options := some { default := some (.str "pending"),
                             enumValues := some "UserStatus" } } := by
  decide

example :
    parseColumnDefinition "userId: integer('userId').references(() => users.id),".data =
    some { name := "userId", type := some "number",
           options := some { references := some { table := "users", column := "id" } } } := by
  decide

-- The `.default(sql`now()`)` rendering does not survive decoding: the captured
-- text stops at the first `)`, so the inner sql-template match fails and the
-- default is dropped.
example :
    parseColumnDefinition "createdAt: timestamp('createdAt').notNull().default(sql`now()`),".data =
    some { name := "createdAt", type := some "date",
           options := some { notNull := some true } } := by
  decide

/-! ### Entity generators (`EnumGenerator`, `HelperGenerator`, `TableGenerator`) -/

/-- `EnumGeneratorResult`. -/
structure EnumGeneratorResult where
  enumCode : String
  imports : ImportMap
  error : Option String := none
deriving DecidableEq, Repr

/-- `EnumGenerator` (`src/generators`, appended to `HelperGenerator.ts`):
`pgEnum` declaration with snake_case db name and PascalCase values. -/
def EnumGenerator (definition : EnumDefinition) : EnumGeneratorResult :=
  let name := definition.name
  let values := definition.values
  if name.data.isEmpty || values.length = 0 then
    { enumCode := "", imports := [], error := some "Enum name and values are mandatory." }
  else
    let formattedValues :=
      String.intercalate ", " (values.map (fun v => "'" ++ PascalCase v ++ "'"))
    { enumCode := "export const " ++ name ++ " = pgEnum('" ++ SnakeCase name ++
        "', [" ++ formattedValues ++ "] as const);",
      imports := [("drizzle-orm/pg-core", ["pgEnum"])], error := none }

/-- `HelperGeneratorResult`. -/
structure HelperGeneratorResult where
  helperCode : String
  imports : ImportMap
  tables : List String
  error : Option String := none
deriving DecidableEq, Repr

/-- The fail-fast column loop of `HelperGenerator` (strips `/,$/`). -/
def helperColumnsLoop : List ColumnDefinition → List String → ImportMap → List String →
    Except String (List String × ImportMap × List String)
  | [], codes, imp, tabs => .ok (codes, imp, tabs)
  | c :: rest, codes, imp, tabs =>
    match (ColumnGenerator c).error with
    | some e => .error ("Error in column '" ++ c.name ++ "': " ++ e)
    | none =>
      helperColumnsLoop rest
        (codes ++ ["    " ++ (⟨stripTrailingComma (ColumnGenerator c).column.data⟩ : String)])
        (mergeImportMaps imp (ColumnGenerator c).imports) (tabs ++ (ColumnGenerator c).tables)

/-- `HelperGenerator` (`src/generators/HelperGenerator.ts`). -/
def HelperGenerator (definition : HelperDefinition) : HelperGeneratorResult :=
  let name := definition.name
  let columns := definition.columns
  if name.data.isEmpty || (jsTrim name).data.isEmpty then
    { helperCode := "", imports := [], tables := [], error := some "Helper name is required." }
  else if columns.length = 0 then
    { helperCode := "", imports := [], tables := [],
      error := some "At least one column is required for a helper." }
  else
    match helperColumnsLoop columns [] [] [] with
    | .error e => { helperCode := "", imports := [], tables := [], error := some e }
    | .ok (codes, imp, tabs) =>
      { helperCode := "export const " ++ name ++ " = \x7b\n" ++
          String.intercalate ",\n" codes ++ "\n\x7d;",
        imports := imp, tables := dedupKeepFirst tabs, error := none }

/-- `TableGeneratorResult`. -/
structure TableGeneratorResult where
  tableCode : String
  imports : ImportMap
  tables : List String
  error : Option String := none
deriving DecidableEq, Repr

/-- The fail-fast column loop of `TableGenerator` (strips `/,+$/`). -/
def tableColumnsLoop : List ColumnDefinition → List String → ImportMap → List String →
    Except String (List String × ImportMap × List String)
  | [], codes, imp, tabs => .ok (codes, imp, tabs)
  | c :: rest, codes, imp, tabs =>
    match (ColumnGenerator c).error with
    | some e => .error ("Error in column '" ++ c.name ++ "': " ++ e)
    | none =>
      tableColumnsLoop rest
        (codes ++ ["    " ++ (⟨stripTrailingCommas (ColumnGenerator c).column.data⟩ : String)])
        (mergeImportMaps imp (ColumnGenerator c).imports) (tabs ++ (ColumnGenerator c).tables)

/-- `TableGenerator` (`part_004`): pgTable declaration with columns, helper
spreads and an optional composite-primary-key block (only for length at least two). -/
def TableGenerator (definition : TableDefinition) : TableGeneratorResult :=
  let name := definition.name
  let dbName := definition.dbName
  let columns := definition.columns
  let helperReferences := (definition.helperReferences).getD []
  let compositePrimaryKey := definition.compositePrimaryKey
  if name.data.isEmpty || (jsTrim name).data.isEmpty then
    { tableCode := "", imports := [], tables := [], error := some "Table name is required." }
  else if columns.length = 0 && helperReferences.length = 0 then
    { tableCode := "", imports := [], tables := [],
      error := some "Table must have at least one column or helper reference." }
  else
    let imp0 := addImportToMap [] "drizzle-orm/pg-core" "pgTable"
    match tableColumnsLoop columns [] imp0 [] with
    | .error e => { tableCode := "", imports := [], tables := [], error := some e }
    | .ok (codes, imp1, tabs) =>
      let imp2 :=
        if helperReferences.length > 0 then
          addImportsToMap imp1 "../helpers/index.js" helperReferences
        else imp1
      let helperSpreads := helperReferences.map (fun h => "    ..." ++ h)
      let tableName := if strTruthy dbName then dbName.getD "" else SnakeCase name
      let allColumnEntries := codes ++ helperSpreads
      let tableStructure :=
        if allColumnEntries.length > 0 then
          "\x7b\n" ++ String.intercalate ",\n" allColumnEntries ++ "\n\x7d"
        else "\x7b\x7d"
      let tableVarName := jsToLower name
      let (compositePKCode, imp3) :=
        match compositePrimaryKey with
        | some pk =>
          if pk.length > 1 then
            (", (" ++ tableVarName ++ ") => (\x7b\n    compositePK: primaryKey(\x7b columns: [" ++
               String.intercalate ", " (pk.map (fun col => tableVarName ++ "." ++ col)) ++
               "] \x7d)\n\x7d)",
             addImportToMap imp2 "drizzle-orm/pg-core" "primaryKey")
          else ("", imp2)
        | none => ("", imp2)
      { tableCode := "export const " ++ tableVarName ++ " = pgTable('" ++ tableName ++
          "', " ++ tableStructure ++ compositePKCode ++ ");",
        imports := imp3, tables := dedupKeepFirst tabs, error := none }

-- Sanity checks against the repository's tests.
example :
    EnumGenerator { name := "UserStatus", values := ["active", "inactive"] } =
    { enumCode := "export const UserStatus = pgEnum('user_status', ['Active', 'Inactive'] as const);",
      imports := [("drizzle-orm/pg-core", ["pgEnum"])], error := none } := by
  decide

example :
    (HelperGenerator
      { name := "BaseFields",
        columns := [{ name := "id", type := some "serial",
                      options := some { primaryKey := some true } }] }).helperCode =
    "export const BaseFields = \x7b\n    id: serial('id').primaryKey()\n\x7d;" := by
  decide

example :
    (TableGenerator
      { name := "userRoles",
        columns := [{ name := "userId", type := some "number" },
                    { name := "roleId", type := some "number" }],
        compositePrimaryKey := some ["userId", "roleId"] }).tableCode =
    "export const userroles = pgTable('user_roles', \x7b\n    userId: integer('userId'),\n    roleId: integer('roleId')\n\x7d, (userroles) => (\x7b\n    compositePK: primaryKey(\x7b columns: [userroles.userId, userroles.roleId] \x7d)\n\x7d));" := by
  decide

/-! ### `SchemaReader.parseEnumContent` -/

/-- `/export const (\w+) = pgEnum\('([^']+)', \[([^\]]+)\] as const\);/` at one
position: enum variable name, db name and the bracketed values text. -/
def matchEnumDeclAt (s : List Char) : Option (List Char × List Char × List Char) :=
  if isPre "export const ".data s then
    let r := s.drop 13
    let n := r.takeWhile wchar
    if n.isEmpty then none
    else
      let r2 := r.drop n.length
      if isPre " = pgEnum('".data r2 then
        let r3 := r2.drop 11
        let db := r3.takeWhile (· ≠ '\'')
        if db.isEmpty then none
        else
          let r4 := r3.drop db.length
          if isPre "', [".data r4 then
            let r5 := r4.drop 4
            let vs := r5.takeWhile (· ≠ ']')
            if vs.isEmpty then none
            else if isPre "] as const);".data (r5.drop vs.length) then some (n, db, vs)
            else none
          else none
      else none
  else none

/-- Global `/'([^']+)'/g` (fuel-indexed; the fuel strictly exceeds the number
of characters still to be scanned, so it never runs out). -/
def scanQuotedFuel : Nat → List Char → List (List Char)
  | 0, _ => []
  | _, [] => []
  | fuel + 1, c :: t =>
    let v := t.takeWhile (· ≠ '\'')
    if c = '\'' && !v.isEmpty && (t.drop v.length).head? = some '\'' then
      v :: scanQuotedFuel fuel ((t.drop v.length).tail)
    else scanQuotedFuel fuel t

/-- Global `/'([^']+)'/g`: all single-quoted runs, in order. -/
def scanQuoted (s : List Char) : List (List Char) := scanQuotedFuel s.length s

/-- `SchemaReader.parseEnumContent`: decode a generated enum file; PascalCase
values are re-cased by inserting underscores before capitals and lowering. -/
def parseEnumContent (content : String) : Option EnumDefinition :=
  match scanFirst matchEnumDeclAt content.data with
  | none => none
  | some (n, _db, valuesString) =>
    match scanQuoted valuesString with
    | [] => none
    | vs =>
      some { name := ⟨n⟩,
             values := vs.map (fun v => ⟨upperToSnake 0 (v.filter (· ≠ '\''))⟩) }

example :
    parseEnumContent "export const UserStatus = pgEnum('user_status', ['Active', 'Inactive'] as const);" =
    some { name := "UserStatus", values := ["active", "inactive"] } := by
  decide

/-! ### `SchemaReader.parseTableContent` -/

/-- Tail of the optional composite-key group: `, \([^)]+\) => \(\{[\s\S]*?\}\)`
followed by `\);` (with backtracking over the lazy inner text). -/
def pkInnerScan : List Char → Bool
  | [] => false
  | s@(_ :: t) =>
    (isPre "\x7d)".data s && isPre ");".data (s.drop 2)) || pkInnerScan t

/-- Matches the optional group of the table regex at the given suffix. -/
def pkGroupSuffix (k : List Char) : Bool :=
  if isPre ", (".data k then
    let a := (k.drop 3).takeWhile (· ≠ ')')
    if a.isEmpty then false
    else
      let r := (k.drop 3).drop a.length
      if isPre ") => (\x7b".data r then pkInnerScan (r.drop 7) else false
  else false

/-- Continuation test after the lazily captured table body: optional
composite-key group, then `\);`. -/
def tableTailMatch (k : List Char) : Bool :=
  pkGroupSuffix k || isPre ");".data k

/-- Lazy `\{([\s\S]*?)\}` capture: the shortest body whose closing brace is
followed by a matching continuation. -/
def lazyBodySplit : List Char → Option (List Char × List Char)
  | [] => none
  | c :: t =>
    if c = '\x7d' && tableTailMatch t then some ([], t)
    else (lazyBodySplit t).map (fun r => (c :: r.1, r.2))

/-- The table declaration regex of `parseTableContent` at one position:
variable name, db name and body text. -/
def matchTableDeclAt (s : List Char) : Option (List Char × List Char × List Char) :=
  if isPre "export const ".data s then
    let r := s.drop 13
    let n := r.takeWhile wchar
    if n.isEmpty then none
    else
      let r2 := r.drop n.length
      if isPre " = pgTable('".data r2 then
        let r3 := r2.drop 12
        let db := r3.takeWhile (· ≠ '\'')
        if db.isEmpty then none
        else
          let r4 := r3.drop db.length
          if isPre "', \x7b".data r4 then
            (lazyBodySplit (r4.drop 4)).map (fun b => (n, db, b.1))
          else none
      else none
  else none

/-- `/\.\.\.(\w+)/` at one position (helper spread). -/
def matchHelperSpreadAt (s : List Char) : Option (List Char) :=
  if isPre "...".data s then
    let n := (s.drop 3).takeWhile wchar
    if n.isEmpty then none else some n
  else none

/-- `SchemaReader.parseTableBody`: split the body into trimmed non-empty lines;
`...Helper` lines become helper references, `name: ...` lines become columns. -/
def parseTableBody (bodyContent : List Char) : List ColumnDefinition × List String :=
  let lines := ((splitOnChar '\n' bodyContent).map trimChars).filter (fun l => !l.isEmpty)
  lines.foldl
    (fun acc line =>
      if isPre "...".data line then
        match scanFirst matchHelperSpreadAt line with
        | some h => (acc.1, acc.2 ++ [(⟨h⟩ : String)])
        | none => acc
      else if containsSub ":".data line then
        match parseColumnDefinition line with
        | some c => (acc.1 ++ [c], acc.2)
        | none => acc
      else acc)
    ([], [])

/-- `/primaryKey\(\{ columns: \[([^\]]+)\] \}\)/` at one position. -/
def matchCompositePKAt (s : List Char) : Option (List Char) :=
  if isPre "primaryKey(\x7b columns: [".data s then
    let r := s.drop 23
    let v := r.takeWhile (· ≠ ']')
    if v.isEmpty then none
    else if isPre "] \x7d)".data (r.drop v.length) then some v else none
  else none

/-- Global `/\w+\.(\w+)/g` (fuel-indexed as for `scanQuotedFuel`). -/
def scanDotPairsFuel : Nat → List Char → List String
  | 0, _ => []
  | _, [] => []
  | fuel + 1, s@(_ :: t) =>
    let a := s.takeWhile wchar
    let r := s.drop (a.length + 1)
    let b := r.takeWhile wchar
    if !a.isEmpty && (s.drop a.length).head? = some '.' && !b.isEmpty then
      (⟨b⟩ : String) :: scanDotPairsFuel fuel (r.drop b.length)
    else scanDotPairsFuel fuel t

/-- Global `/\w+\.(\w+)/g`: the second components of dotted pairs, in order. -/
def scanDotPairs (s : List Char) : List String := scanDotPairsFuel s.length s

/-- `SchemaReader.parseCompositePrimaryKey`. -/
def parseCompositePrimaryKey (content : List Char) : List String :=
  match scanFirst matchCompositePKAt content with
  | none => []
  | some cols => scanDotPairs cols

/-- `filename.replace(".ts", "")`: remove the first occurrence. -/
def removeFirstSub (p : List Char) : List Char → List Char
  | [] => []
  | s@(c :: t) => if isPre p s then s.drop p.length else c :: removeFirstSub p t

/-- `SchemaReader.parseTableContent`: decode a generated table file. The table
name comes from the filename; `dbName` is kept only when it differs from the
lower-cased name. -/
def parseTableContent (content : String) (filename : String) : Option TableDefinition :=
  match scanFirst matchTableDeclAt content.data with
  | none => none
  | some (_variableName, db, bodyContent) =>
    let name : String := ⟨removeFirstSub ".ts".data filename.data⟩
    let pr := parseTableBody bodyContent
    let compositePrimaryKey := parseCompositePrimaryKey content.data
    some { name := name,
           dbName := if (⟨db⟩ : String) ≠ jsToLower name then some ⟨db⟩ else none,
           columns := pr.1,
           helperReferences := if pr.2.length > 0 then some pr.2 else none,
           compositePrimaryKey :=
             if compositePrimaryKey.length > 0 then some compositePrimaryKey else none }

example :
    parseTableContent
      "export const users = pgTable('users', \x7b\n    name: varchar('name', \x7b length: 255 \x7d).notNull(),\n    ...BaseFields\n\x7d);"
      "users.ts" =
    some { name := "users", dbName := none,
           columns := [{ name := "name", type := some "string",
                         options := some { notNull := some true, length := some 255 } }],
           helperReferences := some ["BaseFields"],
           compositePrimaryKey := none } := by
  decide

example :
    parseTableContent
      "export const userroles = pgTable('user_roles', \x7b\n    userId: integer('userId'),\n    roleId: integer('roleId')\n\x7d, (userroles) => (\x7b\n    compositePK: primaryKey(\x7b columns: [userroles.userId, userroles.roleId] \x7d)\n\x7d));"
      "userRoles.ts" =
    some { name := "userRoles", dbName := some "user_roles",
           columns := [{ name := "userId", type := some "number" },
                       { name := "roleId", type := some "number" }],
           helperReferences := none,
           compositePrimaryKey := some ["userId", "roleId"] } := by
  decide

/-! ### `SchemaChangeDetector` (`part_006`) -/

/-- `ProjectGeneratorConfig` (`part_007`). -/
structure ProjectGeneratorConfig where
  outputDir : String
  enums : Option (List EnumDefinition) := none
  helpers : Option (List HelperDefinition) := none
  tables : Option (List TableDefinition) := none
  overwrite : Option Bool := none
deriving DecidableEq, Repr

/-- The `details` payloads attached to schema changes. -/
inductive ChangeDetails where
  | values (vs : List String)
  | value (v : String)
  | typeFromTo (f t : Option String)
  | defaultFromTo (f t : Option DefaultValue)
  | pkFromTo (f t : List String)
  | helperReference (r : String)
deriving DecidableEq, Repr

/-- `SchemaChange` (`SchemaReaderResult.ts`); `category` and `impact` carry the
string values of the TS enums (`addition|modification|removal`,
`safe|warning|breaking`). -/
structure SchemaChange where
  type : String
  category : String
  impact : String
  description : String
  targetType : String
  targetName : String
  targetColumn : Option String := none
  details : Option ChangeDetails := none
deriving DecidableEq, Repr

/-- JS template interpolation of a possibly-undefined string. -/
def jsShowOptString : Option String → String
  | none => "undefined"
  | some s => s

/-- JS `Map` insertion (`Map.prototype.set`): keep position, replace value. -/
def jsMapInsert {α : Type} (m : List (String × α)) (k : String) (v : α) :
    List (String × α) :=
  if m.any (fun e => e.1 = k) then m.map (fun e => if e.1 = k then (e.1, v) else e)
  else m ++ [(k, v)]

/-- `new Map(columns.map(c => [c.name, c]))`. -/
def jsMapOfColumns (cols : List ColumnDefinition) : List (String × ColumnDefinition) :=
  cols.foldl (fun m c => jsMapInsert m c.name c) []

/-- `Map.prototype.has`. -/
def jsMapHas {α : Type} (m : List (String × α)) (k : String) : Bool :=
  m.any (fun e => e.1 = k)

/-- `Map.prototype.get`. -/
def jsMapGet {α : Type} (m : List (String × α)) (k : String) : Option α :=
  (m.find? (fun e => e.1 = k)).map (·.2)

/-- `SchemaChangeDetector.compareEnumValues`. -/
def compareEnumValues (currentEnum newEnum : EnumDefinition) : List SchemaChange :=
  ((newEnum.values.filter (fun v => !currentEnum.values.contains v)).map fun v =>
    { type := "enum_value_added", category := "addition", impact := "safe",
      description := "Added value '" ++ v ++ "' to enum '" ++ newEnum.name ++ "'",
      targetType := "enum", targetName := newEnum.name,
      details := some (.value v) }) ++
  ((currentEnum.values.filter (fun v => !newEnum.values.contains v)).map fun v =>
    { type := "enum_value_removed", category := "removal", impact := "breaking",
      description := "Removed value '" ++ v ++ "' from enum '" ++ newEnum.name ++ "'",
      targetType := "enum", targetName := newEnum.name,
      details := some (.value v) })

/-- `SchemaChangeDetector.compareEnums`: additions, then removals, then
name-matched value comparisons. -/
def compareEnums (currentEnums newEnums : List EnumDefinition) : List SchemaChange :=
  let currentEnumNames := currentEnums.map (·.name)
  let newEnumNames := newEnums.map (·.name)
  ((newEnums.filter (fun e => !currentEnumNames.contains e.name)).map fun e =>
    { type := "enum_added", category := "addition", impact := "safe",
      description := "Added enum '" ++ e.name ++ "' with values: " ++
        String.intercalate ", " e.values,
      targetType := "enum", targetName := e.name,
      details := some (.values e.values) }) ++
  ((currentEnums.filter (fun e => !newEnumNames.contains e.name)).map fun e =>
    { type := "enum_removed", category := "removal", impact := "breaking",
      description := "Removed enum '" ++ e.name ++ "'",
      targetType := "enum", targetName := e.name }) ++
  newEnums.foldl (fun acc newEnum =>
    match currentEnums.find? (fun e => e.name = newEnum.name) with
    | some currentEnum => acc ++ compareEnumValues currentEnum newEnum
    | none => acc) []

/-- `SchemaChangeDetector.compareColumnDefinitions`: type, primary-key,
NOT NULL and default-value changes on a name-matched column pair. -/
def compareColumnDefinitions (currentColumn newColumn : ColumnDefinition)
    (targetType targetName : String) : List SchemaChange :=
  let currentOptions := currentColumn.options.getD {}
  let newOptions := newColumn.options.getD {}
  (if currentColumn.type ≠ newColumn.type then
    [{ type := "column_type_changed", category := "modification", impact := "breaking",
       description := "Changed column '" ++ newColumn.name ++ "' type from '" ++
         jsShowOptString currentColumn.type ++ "' to '" ++
         jsShowOptString newColumn.type ++ "' in " ++ targetType ++ " '" ++ targetName ++ "'",
       targetType := targetType, targetName := targetName,
       targetColumn := some newColumn.name,
       details := some (.typeFromTo currentColumn.type newColumn.type) }]
  else []) ++
  (if currentOptions.primaryKey ≠ newOptions.primaryKey then
    [{ type := "column_primary_key_changed", category := "modification",
       impact := "breaking",
       description := (if boolTruthy newOptions.primaryKey then "Added" else "Removed") ++
         " primary key on column '" ++ newColumn.name ++ "' in " ++ targetType ++
         " '" ++ targetName ++ "'",
       targetType := targetType, targetName := targetName,
       targetColumn := some newColumn.name }]
  else []) ++
  (if currentOptions.notNull ≠ newOptions.notNull then
    [{ type := "column_not_null_changed", category := "modification",
       impact := if boolTruthy newOptions.notNull then "warning" else "safe",
       description := (if boolTruthy newOptions.notNull then "Added NOT NULL constraint"
         else "Removed NOT NULL constraint") ++ " on column '" ++ newColumn.name ++
         "' in " ++ targetType ++ " '" ++ targetName ++ "'",
       targetType := targetType, targetName := targetName,
       targetColumn := some newColumn.name }]
  else []) ++
  (if currentOptions.default ≠ newOptions.default then
    [{ type := "column_default_changed", category := "modification", impact := "safe",
       description := "Changed default value for column '" ++ newColumn.name ++
         "' in " ++ targetType ++ " '" ++ targetName ++ "'",
       targetType := targetType, targetName := targetName,
       targetColumn := some newColumn.name,
       details := some (.defaultFromTo currentOptions.default newOptions.default) }]
  else [])

/-- `SchemaChangeDetector.compareHelperColumns`. -/
def compareHelperColumns (currentHelper newHelper : HelperDefinition) : List SchemaChange :=
  let currentColumns := jsMapOfColumns currentHelper.columns
  let newColumns := jsMapOfColumns newHelper.columns
  ((newColumns.filter (fun e => !jsMapHas currentColumns e.1)).map fun e =>
    { type := "helper_column_added", category := "addition", impact := "safe",
      description := "Added column '" ++ e.1 ++ "' to helper '" ++ newHelper.name ++ "'",
      targetType := "helper", targetName := newHelper.name,
      targetColumn := some e.1 }) ++
  ((currentColumns.filter (fun e => !jsMapHas newColumns e.1)).map fun e =>
    { type := "helper_column_removed", category := "removal", impact := "warning",
      description := "Removed column '" ++ e.1 ++ "' from helper '" ++ newHelper.name ++ "'",
      targetType := "helper", targetName := newHelper.name,
      targetColumn := some e.1 }) ++
  newColumns.foldl (fun acc e =>
    match jsMapGet currentColumns e.1 with
    | some currentColumn =>
      acc ++ compareColumnDefinitions currentColumn e.2 "helper" newHelper.name
    | none => acc) []

/-- `SchemaChangeDetector.compareHelpers`. -/
def compareHelpers (currentHelpers newHelpers : List HelperDefinition) : List SchemaChange :=
  let currentHelperNames := currentHelpers.map (·.name)
  let newHelperNames := newHelpers.map (·.name)
  ((newHelpers.filter (fun h => !currentHelperNames.contains h.name)).map fun h =>
    { type := "helper_added", category := "addition", impact := "safe",
      description := "Added helper '" ++ h.name ++ "' with " ++
        toString h.columns.length ++ " columns",
      targetType := "helper", targetName := h.name }) ++
  ((currentHelpers.filter (fun h => !newHelperNames.contains h.name)).map fun h =>
    { type := "helper_removed", category := "removal", impact := "warning",
      description := "Removed helper '" ++ h.name ++ "'",
      targetType := "helper", targetName := h.name }) ++
  newHelpers.foldl (fun acc newHelper =>
    match currentHelpers.find? (fun h => h.name = newHelper.name) with
    | some currentHelper => acc ++ compareHelperColumns currentHelper newHelper
    | none => acc) []

/-- `SchemaChangeDetector.compareTableColumns`: a NOT NULL addition is a
warning with an explanatory description suffix, otherwise safe. -/
def compareTableColumns (currentTable newTable : TableDefinition) : List SchemaChange :=
  let currentColumns := jsMapOfColumns currentTable.columns
  let newColumns := jsMapOfColumns newTable.columns
  ((newColumns.filter (fun e => !jsMapHas currentColumns e.1)).map fun e =>
    { type := "table_column_added", category := "addition",
      impact := if boolTruthy (e.2.options.getD {}).notNull then "warning" else "safe",
      description := "Added column '" ++ e.1 ++ "' to table '" ++ newTable.name ++ "'" ++
        (if boolTruthy (e.2.options.getD {}).notNull then
          " (NOT NULL - requires default or data migration)" else ""),
      targetType := "table", targetName := newTable.name,
      targetColumn := some e.1 }) ++
  ((currentColumns.filter (fun e => !jsMapHas newColumns e.1)).map fun e =>
    { type := "table_column_removed", category := "removal", impact := "breaking",
      description := "Removed column '" ++ e.1 ++ "' from table '" ++ newTable.name ++ "'",
      targetType := "table", targetName := newTable.name,
      targetColumn := some e.1 }) ++
  newColumns.foldl (fun acc e =>
    match jsMapGet currentColumns e.1 with
    | some currentColumn =>
      acc ++ compareColumnDefinitions currentColumn e.2 "table" newTable.name
    | none => acc) []

/-- `SchemaChangeDetector.compareHelperReferences` (set semantics). -/
def compareHelperReferences (currentTable newTable : TableDefinition) : List SchemaChange :=
  let currentRefs := dedupKeepFirst (currentTable.helperReferences.getD [])
  let newRefs := dedupKeepFirst (newTable.helperReferences.getD [])
  ((newRefs.filter (fun r => !currentRefs.contains r)).map fun r =>
    { type := "table_helper_reference_added", category := "addition", impact := "safe",
      description := "Added helper reference '" ++ r ++ "' to table '" ++
        newTable.name ++ "'",
      targetType := "table", targetName := newTable.name,
      details := some (.helperReference r) }) ++
  ((currentRefs.filter (fun r => !newRefs.contains r)).map fun r =>
    { type := "table_helper_reference_removed", category := "removal", impact := "warning",
      description := "Removed helper reference '" ++ r ++ "' from table '" ++
        newTable.name ++ "'",
      targetType := "table", targetName := newTable.name,
      details := some (.helperReference r) })

/-- `SchemaChangeDetector.compareCompositePrimaryKeys` (set inequality). -/
def compareCompositePrimaryKeys (currentTable newTable : TableDefinition) :
    List SchemaChange :=
  let currentPK := dedupKeepFirst (currentTable.compositePrimaryKey.getD [])
  let newPK := dedupKeepFirst (newTable.compositePrimaryKey.getD [])
  if currentPK.length ≠ newPK.length || currentPK.any (fun col => !newPK.contains col) then
    [{ type := "table_composite_primary_key_changed", category := "modification",
       impact := "breaking",
       description := "Changed composite primary key for table '" ++ newTable.name ++ "'",
       targetType := "table", targetName := newTable.name,
       details := some (.pkFromTo currentPK newPK) }]
  else []

/-- `SchemaChangeDetector.compareTableStructure` (both column lists are always
present in the model, so the `columns && columns` guard is always taken). -/
def compareTableStructure (currentTable newTable : TableDefinition) : List SchemaChange :=
  compareTableColumns currentTable newTable ++
  compareHelperReferences currentTable newTable ++
  compareCompositePrimaryKeys currentTable newTable

/-- `SchemaChangeDetector.compareTables`. -/
def compareTables (currentTables newTables : List TableDefinition) : List SchemaChange :=
  let currentTableNames := currentTables.map (·.name)
  let newTableNames := newTables.map (·.name)
  ((newTables.filter (fun t => !currentTableNames.contains t.name)).map fun t =>
    { type := "table_added", category := "addition", impact := "safe",
      description := "Added table '" ++ t.name ++ "' with " ++
        toString t.columns.length ++ " columns",
      targetType := "table", targetName := t.name }) ++
  ((currentTables.filter (fun t => !newTableNames.contains t.name)).map fun t =>
    { type := "table_removed", category := "removal", impact := "breaking",
      description := "Removed table '" ++ t.name ++ "'",
      targetType := "table", targetName := t.name }) ++
  newTables.foldl (fun acc newTable =>
    match currentTables.find? (fun t => t.name = newTable.name) with
    | some currentTable => acc ++ compareTableStructure currentTable newTable
    | none => acc) []

/-- Summary counters (`generateSummary`). -/
structure ChangeSummary where
  totalChanges : Nat
  byCategory : List (String × Nat)
  byImpact : List (String × Nat)
  byType : List (String × Nat)
deriving DecidableEq, Repr

/-- `byType[change.type] = (byType[change.type] || 0) + 1`. -/
def bumpTypeCount (m : List (String × Nat)) (k : String) : List (String × Nat) :=
  if m.any (fun e => e.1 = k) then m.map (fun e => if e.1 = k then (e.1, e.2 + 1) else e)
  else m ++ [(k, 1)]

/-- `SchemaChangeDetector.generateSummary`. -/
def generateSummary (changes : List SchemaChange) : ChangeSummary :=
  { totalChanges := changes.length,
    byCategory := ["addition", "modification", "removal"].map
      (fun cat => (cat, (changes.filter (fun c => c.category = cat)).length)),
    byImpact := ["safe", "warning", "breaking"].map
      (fun i => (i, (changes.filter (fun c => c.impact = i)).length)),
    byType := changes.foldl (fun m c => bumpTypeCount m c.type) [] }

/-- The "no changes" recommendation (the source file's exact code points). -/
def noChangesRecommendation : String :=
  "ðŸŽ‰ No changes detected. Schemas are identical."

/-- `SchemaChangeDetector.generateRecommendations`. -/
def generateRecommendations (changes : List SchemaChange) : List String :=
  let breakingChanges := changes.filter (fun c => c.impact = "breaking")
  let warningChanges := changes.filter (fun c => c.impact = "warning")
  let safeChanges := changes.filter (fun c => c.impact = "safe")
  (if breakingChanges.length > 0 then
    ["âš ï¸  " ++ toString breakingChanges.length ++
       " breaking changes detected. Consider creating a migration plan."] ++
    (if (breakingChanges.filter (fun c => c.type = "table_removed")).length > 0 then
      ["ðŸ“‹ Back up data for removed tables before applying changes."]
    else []) ++
    (if (breakingChanges.filter
        (fun c => containsSub "column_removed".data c.type.data)).length > 0 then
      ["ðŸ”„ Plan data migration for removed columns."]
    else [])
  else []) ++
  (if warningChanges.length > 0 then
    ["âš¡ " ++ toString warningChanges.length ++
       " changes require attention. Review before applying."] ++
    (if (warningChanges.filter
        (fun c => containsSub "NOT NULL".data c.description.data)).length > 0 then
      ["ðŸ”§ Add default values or populate data for new NOT NULL columns."]
    else [])
  else []) ++
  (if safeChanges.length > 0 then
    ["âœ… " ++ toString safeChanges.length ++
       " safe changes can be applied automatically."]
  else []) ++
  (if changes.length = 0 then [noChangesRecommendation] else [])

/-- `SchemaComparison` (the `canApply` record is flattened into three flags). -/
structure SchemaComparison where
  changes : List SchemaChange
  summary : ChangeSummary
  recommendations : List String
  canApplySafe : Bool
  canApplyWithWarnings : Bool
  canApplyWithBreaking : Bool
deriving DecidableEq, Repr

/-- `SchemaChangeDetector.compareSchemas`: enums, then helpers, then tables. -/
def compareSchemas (currentSchema newSchema : ProjectGeneratorConfig) : SchemaComparison :=
  let changes :=
    compareEnums (currentSchema.enums.getD []) (newSchema.enums.getD []) ++
    compareHelpers (currentSchema.helpers.getD []) (newSchema.helpers.getD []) ++
    compareTables (currentSchema.tables.getD []) (newSchema.tables.getD [])
  { changes := changes,
    summary := generateSummary changes,
    recommendations := generateRecommendations changes,
    canApplySafe := changes.any (fun c => c.impact = "safe"),
    canApplyWithWarnings := changes.any (fun c => c.impact = "warning"),
    canApplyWithBreaking := changes.any (fun c => c.impact = "breaking") }

/-- Options of `applySafeChanges`. -/
structure ApplyOptions where
  allowBreaking : Option Bool := none
  allowWarning : Option Bool := none
  dryRun : Option Bool := none
deriving DecidableEq, Repr

/-- `SchemaUpdateResult` (metadata flattened). -/
structure SchemaUpdateResult where
  applied : List SchemaChange
  rejected : List SchemaChange
  totalChanges : Nat
  appliedCount : Nat
  rejectedCount : Nat
  dryRun : Bool
deriving DecidableEq, Repr

/-- `SchemaChangeDetector.shouldApplyChange`: the three-tier policy; unknown
impact values are rejected. -/
def shouldApplyChange (change : SchemaChange) (allowBreaking allowWarning : Bool) : Bool :=
  match change.impact with
  | "safe" => true
  | "warning" => allowWarning
  | "breaking" => allowBreaking
  | _ => false

/-- `SchemaChangeDetector.applySafeChanges` (the non-dry-run file write is the
out-of-scope collaborator; the returned value is modelled). -/
def applySafeChanges (_projectPath : String) (comparison : SchemaComparison)
    (options : ApplyOptions) : SchemaUpdateResult :=
  let allowBreaking := options.allowBreaking.getD false
  let allowWarning := options.allowWarning.getD true
  let dryRun := options.dryRun.getD false
  let pr := comparison.changes.foldl
    (fun acc change =>
      if shouldApplyChange change allowBreaking allowWarning then
        (acc.1 ++ [change], acc.2)
      else (acc.1, acc.2 ++ [change]))
    (([], []) : List SchemaChange × List SchemaChange)
  { applied := pr.1, rejected := pr.2,
    totalChanges := comparison.changes.length,
    appliedCount := pr.1.length, rejectedCount := pr.2.length, dryRun := dryRun }

/-! ### Generic lemmas about the JS string primitives -/

theorem isPre_append_self (p r : List Char) : isPre p (p ++ r) = true := by
  induction p with
  | nil => rfl
  | cons a as ih => simp [isPre, ih]

theorem containsSub_cons_eq (p : List Char) (c : Char) (t : List Char) :
    containsSub p (c :: t) = (isPre p (c :: t) || containsSub p t) := by
  conv_lhs => rw [containsSub]

theorem containsSub_of_isPre {p s : List Char} (h : isPre p s = true) :
    containsSub p s = true := by
  cases s with
  | nil => rw [containsSub]; simp [h]
  | cons c t => rw [containsSub_cons_eq, h, Bool.true_or]

theorem containsSub_append_right {p : List Char} (a : List Char) {s : List Char}
    (h : containsSub p s = true) : containsSub p (a ++ s) = true := by
  induction a with
  | nil => simpa
  | cons c t ih => rw [List.cons_append, containsSub_cons_eq, ih, Bool.or_true]

theorem containsSub_infix (p a b : List Char) :
    containsSub p (a ++ (p ++ b)) = true :=
  containsSub_append_right a (containsSub_of_isPre (isPre_append_self p b))

theorem containsSub_cons_of_isPre_false {p : List Char} {c : Char} {t : List Char}
    (h : isPre p (c :: t) = false) : containsSub p (c :: t) = containsSub p t := by
  rw [containsSub_cons_eq, h, Bool.false_or]

theorem isPre_cons_of_head_ne {a c : Char} {p s : List Char} (h : c ≠ a) :
    isPre (a :: p) (c :: s) = false := by
  simp [isPre, (Ne.symm h)]

theorem containsSub_cons_skip {p : List Char} {a : Char} (hp : p.head? = some a)
    {c : Char} (h : c ≠ a) (t : List Char) :
    containsSub p (c :: t) = containsSub p t := by
  match p, hp with
  | a :: p', rfl => exact containsSub_cons_of_isPre_false (isPre_cons_of_head_ne h)

theorem containsSub_append_skip {p : List Char} {a : Char} (hp : p.head? = some a)
    {b : List Char} (hb : ∀ c ∈ b, c ≠ a) (s : List Char) :
    containsSub p (b ++ s) = containsSub p s := by
  induction b with
  | nil => rfl
  | cons c t ih =>
    rw [List.cons_append, containsSub_cons_skip hp (hb c (by simp))]
    exact ih fun y hy => hb y (by simp [hy])

theorem containsSub_head_not_mem {a : Char} {p s : List Char} (hp : p.head? = some a)
    (h : a ∉ s) : containsSub p s = false := by
  induction s with
  | nil => match p, hp with
           | a :: p', rfl => rfl
  | cons c t ih =>
    have hca : c ≠ a := fun he => h (he ▸ List.mem_cons_self c t)
    rw [containsSub_cons_skip hp hca]
    exact ih fun hm => h (List.mem_cons_of_mem c hm)

/-- Matching a pattern `q₁ ++ qc :: q₂` (word run, then a non-word character
other than `d`) against `w ++ d :: rest` (word run, then `d`) always fails. -/
theorem isPre_false_word_boundary (q₁ : List Char) (qc : Char) (q₂ : List Char)
    (w : List Char) (d : Char) (rest : List Char)
    (hq₁ : ∀ c ∈ q₁, wchar c = true) (hqc : wchar qc = false) (hd : qc ≠ d)
    (hw : ∀ c ∈ w, wchar c = true) (hdw : wchar d = false) :
    isPre (q₁ ++ qc :: q₂) (w ++ d :: rest) = false := by
  induction w generalizing q₁ with
  | nil =>
    cases q₁ with
    | nil => simpa [isPre] using fun he => absurd he hd
    | cons x xs =>
      have hx : wchar x = true := hq₁ x (by simp)
      have : x ≠ d := fun he => by rw [he, hdw] at hx; exact Bool.noConfusion hx
      simpa [isPre] using fun he => absurd he this
  | cons y ys ih =>
    have hy : wchar y = true := hw y (by simp)
    cases q₁ with
    | nil =>
      have : qc ≠ y := fun he => by rw [he, hy] at hqc; exact Bool.noConfusion hqc
      simpa [isPre] using fun he => absurd he this
    | cons x xs =>
      by_cases hxy : x = y
      · subst hxy
        simpa [isPre] using ih xs (fun c hc => hq₁ c (by simp [hc]))
            (fun c hc => hw c (by simp [hc]))
      · simpa [isPre] using fun he => absurd he hxy

theorem scanFirst_cons_none {α : Type} {f : List Char → Option α} {c : Char}
    {t : List Char} (h : f (c :: t) = none) :
    scanFirst f (c :: t) = scanFirst f t := by
  rw [scanFirst, h]

theorem scanFirst_cons_some {α : Type} {f : List Char → Option α} {c : Char}
    {t : List Char} {r : α} (h : f (c :: t) = some r) :
    scanFirst f (c :: t) = some r := by
  rw [scanFirst, h]

theorem takeWhile_append_all {P : Char → Bool} (w r : List Char)
    (hw : ∀ c ∈ w, P c = true) :
    (w ++ r).takeWhile P = w ++ r.takeWhile P := by
  induction w with
  | nil => rfl
  | cons c t ih =>
    simp only [List.cons_append, List.takeWhile_cons, hw c (by simp), if_pos]
    rw [ih fun y hy => hw y (by simp [hy])]

theorem takeWhile_cons_neg {P : Char → Bool} {c : Char} (t : List Char)
    (h : P c = false) : (c :: t).takeWhile P = [] := by
  simp [List.takeWhile_cons, h]

theorem takeWhile_all {P : Char → Bool} (w : List Char) (hw : ∀ c ∈ w, P c = true) :
    w.takeWhile P = w := by
  have := takeWhile_append_all (P := P) w [] hw
  simpa using this

/-! #### Decimal rendering and `parseInt` -/

theorem digitChar_isDigit {m : Nat} (h : m < 10) : (Nat.digitChar m).isDigit = true := by
  interval_cases m <;> decide

theorem digitChar_val {m : Nat} (h : m < 10) : (Nat.digitChar m).toNat - 48 = m := by
  interval_cases m <;> decide

theorem toDigitsCore_spec (fuel : Nat) :
    ∀ n acc, n < fuel →
      ∃ digs, Nat.toDigitsCore 10 fuel n acc = digs ++ acc ∧ digs ≠ [] ∧
        (∀ c ∈ digs, c.isDigit = true) ∧
        ∀ a, digs.foldl (fun a c => a * 10 + (c.toNat - 48)) a =
          a * 10 ^ digs.length + n := by
  induction fuel with
  | zero => intro n acc h; omega
  | succ fuel ih =>
    intro n acc _
    have hmod : n % 10 < 10 := Nat.mod_lt n (by norm_num)
    by_cases hdiv : n / 10 = 0
    · refine ⟨[Nat.digitChar (n % 10)], ?_, by simp, ?_, ?_⟩
      · simp [Nat.toDigitsCore, hdiv]
      · intro c hc
        simp only [List.mem_singleton] at hc
        exact hc ▸ digitChar_isDigit hmod
      · intro a
        simp only [List.foldl, List.length_singleton, pow_one]
        rw [digitChar_val hmod]
        omega
    · have hge : 10 ≤ n := by
        by_contra hlt
        exact hdiv (Nat.div_eq_of_lt (by omega))
      obtain ⟨digs, heq, hne, hdig, hval⟩ :=
        ih (n / 10) (Nat.digitChar (n % 10) :: acc) (by omega)
      refine ⟨digs ++ [Nat.digitChar (n % 10)], ?_, by simp, ?_, ?_⟩
      · simp [Nat.toDigitsCore, hdiv, heq]
      · intro c hc
        rcases List.mem_append.mp hc with h | h
        · exact hdig c h
        · simp only [List.mem_singleton] at h
          exact h ▸ digitChar_isDigit hmod
      · intro a
        rw [List.foldl_append, hval a]
        simp only [List.foldl, List.length_append, List.length_singleton]
        rw [digitChar_val hmod]
        have : n = 10 * (n / 10) + n % 10 := (Nat.div_add_mod n 10).symm
        ring_nf
        omega

theorem natRepr_digits (n : Nat) :
    (∀ c ∈ (Nat.repr n).data, c.isDigit = true) ∧
      parseDigits (Nat.repr n).data = n ∧ (Nat.repr n).data ≠ [] := by
  obtain ⟨digs, heq, hne, hdig, hval⟩ :=
    toDigitsCore_spec (n + 1) n [] (Nat.lt_succ_self n)
  have hrepr : (Nat.repr n).data = digs := by
    show (Nat.toDigits 10 n).asString.data = digs
    rw [Nat.toDigits, heq]
    simp [List.asString]
  refine ⟨?_, ?_, ?_⟩
  · rw [hrepr]; exact hdig
  · rw [hrepr]
    show digs.foldl _ 0 = n
    simpa using hval 0
  · rw [hrepr]; exact hne

theorem natRepr_allDigits (n : Nat) : allDigits (Nat.repr n).data = true := by
  obtain ⟨h1, _, h3⟩ := natRepr_digits n
  unfold allDigits
  rw [Bool.and_eq_true]
  constructor
  · cases h : (Nat.repr n).data with
    | nil => exact absurd h h3
    | cons c t => rfl
  · rw [List.all_eq_true]
    exact h1

/-! ### C4: the change-application policy gate -/

theorem applyChangesFold (ab aw : Bool) (l : List SchemaChange)
    (a r : List SchemaChange) :
    l.foldl (fun acc change =>
        if shouldApplyChange change ab aw then (acc.1 ++ [change], acc.2)
        else (acc.1, acc.2 ++ [change])) (a, r) =
      (a ++ l.filter (fun c => shouldApplyChange c ab aw),
       r ++ l.filter (fun c => !shouldApplyChange c ab aw)) := by
  induction l generalizing a r with
  | nil => simp
  | cons c t ih =>
    simp only [List.foldl_cons, List.filter_cons]
    by_cases h : shouldApplyChange c ab aw
    · simp [h, ih]
    · simp [h, ih]

/-- The two example changes of the spec's policy scenario. -/
def sampleSafeChange : SchemaChange :=
  { type := "table_added", category := "addition", impact := "safe",
    description := "Added table 'posts' with 1 columns",
    targetType := "table", targetName := "posts" }

/-- See `sampleSafeChange`. -/
def sampleBreakingChange : SchemaChange :=
  { type := "table_removed", category := "removal", impact := "breaking",
    description := "Removed table 'users'",
    targetType := "table", targetName := "users" }

/-- A comparison holding exactly one safe and one breaking change. -/
def sampleComparison : SchemaComparison :=
  { changes := [sampleSafeChange, sampleBreakingChange],
    summary := generateSummary [sampleSafeChange, sampleBreakingChange],
    recommendations := generateRecommendations [sampleSafeChange, sampleBreakingChange],
    canApplySafe := true, canApplyWithWarnings := false, canApplyWithBreaking := true }

/-- The applied/rejected partition of `applySafeChanges` as two filters. -/
theorem applySafeChanges_parts (p : String) (comparison : SchemaComparison)
    (options : ApplyOptions) :
    (applySafeChanges p comparison options).applied =
        comparison.changes.filter (fun c =>
          shouldApplyChange c (options.allowBreaking.getD false)
            (options.allowWarning.getD true)) ∧
      (applySafeChanges p comparison options).rejected =
        comparison.changes.filter (fun c =>
          !shouldApplyChange c (options.allowBreaking.getD false)
            (options.allowWarning.getD true)) := by
  unfold applySafeChanges
  simp only [applyChangesFold]
  simp

/-- The three-tier decision of `shouldApplyChange`, characterised. -/
theorem shouldApplyChange_iff (c : SchemaChange) (ab aw : Bool) :
    shouldApplyChange c ab aw = true ↔
      (c.impact = "safe" ∨ (c.impact = "warning" ∧ aw = true) ∨
        (c.impact = "breaking" ∧ ab = true)) := by
  unfold shouldApplyChange
  split
  · rename_i h
    simp [h]
  · rename_i h
    simp [h]
  · rename_i h
    simp [h]
  · rename_i h1 h2 h3
    simp only [Bool.false_eq_true, false_iff]
    push_neg
    exact ⟨h1, fun h => absurd h h2, fun h => absurd h h3⟩

/-- C4: `applySafeChanges` partitions every change of the comparison into
applied or rejected by impact tier: safe changes always apply, warnings apply
iff `allowWarning` (default true), breaking changes apply iff `allowBreaking`
(default false), and any other impact value is rejected. For one safe plus one
breaking change, default options apply exactly the safe change, and
`allowBreaking := true` applies both. -/
theorem applySafeChanges_policy (p : String) (comparison : SchemaComparison)
    (options : ApplyOptions) :
    ((applySafeChanges p comparison options).applied =
        comparison.changes.filter (fun c =>
          shouldApplyChange c (options.allowBreaking.getD false)
            (options.allowWarning.getD true)) ∧
      (applySafeChanges p comparison options).rejected =
        comparison.changes.filter (fun c =>
          !shouldApplyChange c (options.allowBreaking.getD false)
            (options.allowWarning.getD true))) ∧
    (∀ c : SchemaChange, ∀ ab aw : Bool,
      shouldApplyChange c ab aw = true ↔
        (c.impact = "safe" ∨ (c.impact = "warning" ∧ aw = true) ∨
          (c.impact = "breaking" ∧ ab = true))) ∧
    ((applySafeChanges p sampleComparison {}).applied = [sampleSafeChange] ∧
      (applySafeChanges p sampleComparison {}).rejected = [sampleBreakingChange] ∧
      (applySafeChanges p sampleComparison { allowBreaking := some true }).applied =
        [sampleSafeChange, sampleBreakingChange] ∧
      (applySafeChanges p sampleComparison { allowBreaking := some true }).rejected = []) := by
  refine ⟨applySafeChanges_parts p comparison options,
    shouldApplyChange_iff, ?_, ?_, ?_, ?_⟩
  · rw [(applySafeChanges_parts p sampleComparison {}).1]
    decide
  · rw [(applySafeChanges_parts p sampleComparison {}).2]
    decide
  · rw [(applySafeChanges_parts p sampleComparison { allowBreaking := some true }).1]
    decide
  · rw [(applySafeChanges_parts p sampleComparison { allowBreaking := some true }).2]
    decide

/-! ### C10: name validation asymmetry across the three generators -/

/-- A string starting with a nonempty string is nonempty. -/
theorem data_append_ne_nil (a b : String) (h : a.data ≠ []) : (a ++ b).data ≠ [] := by
  rw [String.data_append]
  intro he
  exact h (List.append_eq_nil.mp he).1

/-- A string with nonempty character data is not the empty string. -/
theorem ne_empty_of_data_ne_nil {a : String} (h : a.data ≠ []) : a ≠ "" := by
  intro he
  exact h (congrArg String.data he)

/-- The success case of `EnumGenerator`, in closed form. -/
theorem EnumGenerator_success (n : String) (values : List String)
    (h1 : n.data.isEmpty = false) (h2 : ¬ values.length = 0) :
    EnumGenerator { name := n, values := values } =
      { enumCode := "export const " ++ n ++ " = pgEnum('" ++ SnakeCase n ++ "', [" ++
          String.intercalate ", " (values.map (fun v => "'" ++ PascalCase v ++ "'")) ++
          "] as const);",
        imports := [("drizzle-orm/pg-core", ["pgEnum"])], error := none } := by
  unfold EnumGenerator
  rw [if_neg]
  simp [h1, h2]

/-- C10: a whitespace-only entity name is rejected by `HelperGenerator` and
`TableGenerator` (no code, a validation error), while `EnumGenerator` accepts
it: its check only tests for a falsy name and never trims. -/
theorem whitespaceName_validation_asymmetry (n : String) (cols : List ColumnDefinition)
    (values : List String)
    (h1 : n.data ≠ []) (h2 : (jsTrim n).data = []) (h3 : values ≠ []) :
    (HelperGenerator { name := n, columns := cols }).error = some "Helper name is required." ∧
    (HelperGenerator { name := n, columns := cols }).helperCode = "" ∧
    (TableGenerator { name := n, columns := cols }).error = some "Table name is required." ∧
    (TableGenerator { name := n, columns := cols }).tableCode = "" ∧
    (EnumGenerator { name := n, values := values }).error = none ∧
    (EnumGenerator { name := n, values := values }).enumCode ≠ "" := by
  have hne : n.data.isEmpty = false := by
    cases h : n.data with
    | nil => exact absurd h h1
    | cons c t => rfl
  have htr : (jsTrim n).data.isEmpty = true := by rw [h2]; rfl
  have hvl : ¬ values.length = 0 := by
    cases values with
    | nil => exact absurd rfl h3
    | cons v t => simp
  have henum := EnumGenerator_success n values hne hvl
  refine ⟨?_, ?_, ?_, ?_, ?_, ?_⟩
  · unfold HelperGenerator
    simp [hne, htr]
  · unfold HelperGenerator
    simp [hne, htr]
  · unfold TableGenerator
    simp [hne, htr]
  · unfold TableGenerator
    simp [hne, htr]
  · rw [henum]
  · rw [henum]
    exact ne_empty_of_data_ne_nil (data_append_ne_nil _ _ (data_append_ne_nil _ _
      (data_append_ne_nil _ _ (data_append_ne_nil _ _ (data_append_ne_nil _ _
        (data_append_ne_nil _ _ (by decide)))))))

/-- Whitespace-only names exist: instantiation of the asymmetry theorem at a
single-space name. -/
theorem whitespaceName_validation_asymmetry_witness :
    (HelperGenerator { name := " ", columns := [] }).error =
        some "Helper name is required." ∧
      (EnumGenerator { name := " ", values := ["active"] }).error = none := by
  have h := whitespaceName_validation_asymmetry " " [] ["active"]
    (by decide) (by decide) (by decide)
  exact ⟨h.1, h.2.2.2.2.1⟩

/-! ### C9: fail-fast column encoding in `HelperGenerator` -/

/-- The helper column loop surfaces the first column error. -/
theorem helperColumnsLoop_error (pre : List ColumnDefinition) (c : ColumnDefinition)
    (post : List ColumnDefinition) (reason : String)
    (hpre : ∀ x ∈ pre, (ColumnGenerator x).error = none)
    (hc : (ColumnGenerator c).error = some reason) :
    ∀ codes imp tabs,
      helperColumnsLoop (pre ++ c :: post) codes imp tabs =
        .error ("Error in column '" ++ c.name ++ "': " ++ reason) := by
  induction pre with
  | nil =>
    intro codes imp tabs
    rw [List.nil_append]
    unfold helperColumnsLoop
    rw [hc]
  | cons x xs ih =>
    intro codes imp tabs
    have hx := hpre x (by simp)
    rw [List.cons_append]
    unfold helperColumnsLoop
    rw [hx]
    exact ih (fun y hy => hpre y (by simp [hy])) _ _ _

/-- C9: with a valid name and at least one column, `HelperGenerator` aborts at
the first column the Column Codec rejects: the error is
`Error in column '<name>': <reason>` for that first failing column (all earlier
columns encode cleanly), and no partial helper code is emitted. -/
theorem helperGenerator_failFast (n : String) (pre post : List ColumnDefinition)
    (c : ColumnDefinition) (reason : String)
    (hname : (jsTrim n).data ≠ [])
    (hpre : ∀ x ∈ pre, (ColumnGenerator x).error = none)
    (hc : (ColumnGenerator c).error = some reason) :
    (HelperGenerator { name := n, columns := pre ++ c :: post }).error =
        some ("Error in column '" ++ c.name ++ "': " ++ reason) ∧
    (HelperGenerator { name := n, columns := pre ++ c :: post }).helperCode = "" := by
  have hn1 : n.data.isEmpty = false := by
    cases h : n.data with
    | nil => exact absurd (show (jsTrim n).data = [] by simp [jsTrim, trimChars, h]) hname
    | cons a t => rfl
  have hn2 : (jsTrim n).data.isEmpty = false := by
    cases h : (jsTrim n).data with
    | nil => exact absurd h hname
    | cons a t => rfl
  have hcols : ¬ (pre ++ c :: post).length = 0 := by
    simp [List.length_append]
  unfold HelperGenerator
  simp only [helperColumnsLoop_error pre c post reason hpre hc, hn1, hn2]
  simp [hcols]

/-- Instantiation of the fail-fast theorem: the repository's own test case of a
helper with one unsupported column. -/
theorem helperGenerator_failFast_witness :
    (HelperGenerator
      { name := "BadHelper",
        columns := [{ name := "invalidColumn", type := some "unsupported" }] }).error =
      some "Error in column 'invalidColumn': Unsupported type 'unsupported' for column 'invalidColumn'." := by
  exact (helperGenerator_failFast "BadHelper" [] []
    { name := "invalidColumn", type := some "unsupported" }
    "Unsupported type 'unsupported' for column 'invalidColumn'."
    (by decide) (by intro x hx; cases hx) (by decide)).1

/-! ### C2: `type` vs `enumValues` precedence in the column encoder -/

/-- C2 counterexample: with both `type := "string"` and `enumValues` set, the
encoder renders a varchar column driven by the type; the enum name is not the
constructor and nothing is imported from the enums namespace. -/
theorem columnGenerator_bothSet_cex :
    (ColumnGenerator
      { name := "status", type := some "string",
        options := some { enumValues := some "UserStatus" } }).column =
      "status: varchar('status')," ∧
    (ColumnGenerator
      { name := "status", type := some "string",
        options := some { enumValues := some "UserStatus" } }).imports =
      [("drizzle-orm/pg-core", ["varchar"])] ∧
    hasImport (ColumnGenerator
      { name := "status", type := some "string",
        options := some { enumValues := some "UserStatus" } }).imports
      "../enums/index.js" "UserStatus" = false := by
  decide

/-- C2 amended: when both `type` and `options.enumValues` are set, the truthy
`type` wins: unless it is (case-insensitively) the literal `"enum"`, rendering
is exactly that of the same definition without `enumValues` (so `enumValues`
is ignored); only when the type is literally `"enum"` does the enum rendering
apply, identical to the definition without a `type`. -/
theorem columnGenerator_enumValues_scope (d : ColumnDefinition)
    (h1 : strTruthy d.type = true)
    (h2 : strTruthy (d.options.getD {}).enumValues = true) :
    (jsToLower (d.type.getD "") ≠ "enum" →
      ColumnGenerator d =
        ColumnGenerator
          { d with options := some { d.options.getD {} with enumValues := none } }) ∧
    (jsToLower (d.type.getD "") = "enum" →
      ColumnGenerator d = ColumnGenerator { d with type := none }) := by
  obtain ⟨nm, ty, op⟩ := d
  cases ty with
  | none => exact absurd h1 (by simp [strTruthy])
  | some t =>
    simp only [Option.getD_some] at h2 ⊢
    constructor
    · intro hne
      unfold ColumnGenerator
      simp only [inferColumnType, h1, if_true, Option.getD_some]
      cases htm : TypeMap (jsToLower t) with
      | none => simp
      | some f =>
        simp [hne]
    · intro heq
      unfold ColumnGenerator
      have hsn : strTruthy (none : Option String) = false := rfl
      have hlo : jsToLower "enum" = "enum" := rfl
      have ht : TypeMap "enum" = some "pgEnum" := rfl
      simp only [inferColumnType, h1, if_true, Option.getD_some, heq, hsn,
        Bool.false_eq_true, if_false, h2, if_true, hlo, ht]

/-! ### C6: classification of added table columns -/

theorem jsMapInsert_has {α : Type} (m : List (String × α)) (j : String) (v : α)
    (k : String) :
    jsMapHas (jsMapInsert m j v) k = (jsMapHas m k || j = k) := by
  unfold jsMapInsert jsMapHas
  by_cases hany : m.any (fun e => e.1 = j)
  · simp only [hany, if_true, List.any_map]
    have hco : ((fun e : String × α => decide (e.1 = k)) ∘
        (fun e => if e.1 = j then (e.1, v) else e)) =
        fun e : String × α => decide (e.1 = k) := by
      funext e
      by_cases h : e.1 = j <;> simp [h]
    rw [hco]
    by_cases hjk : j = k
    · subst hjk
      simp [hany]
    · simp [hjk]
  · simp only [hany, if_false, List.any_append, List.any_cons, List.any_nil]
    simp
  
theorem jsMapHas_ofColumns (cols : List ColumnDefinition) (k : String) :
    jsMapHas (jsMapOfColumns cols) k = (cols.map (·.name)).contains k := by
  suffices h : ∀ m, jsMapHas (cols.foldl (fun m c => jsMapInsert m c.name c) m) k =
      (jsMapHas m k || (cols.map (·.name)).contains k) by
    have := h []
    simpa [jsMapOfColumns, jsMapHas] using this
  induction cols with
  | nil => simp
  | cons c rest ih =>
    intro m
    have hc : ((c.name :: List.map (fun x => x.name) rest).contains k) =
        (decide (c.name = k) || (List.map (fun x => x.name) rest).contains k) := by
      by_cases h : c.name = k
      · subst h
        simp
      · have h' : ¬ k = c.name := fun hh => h hh.symm
        simp [h, h']
    simp only [List.foldl_cons, ih, jsMapInsert_has, List.map_cons, hc]
    rw [Bool.or_assoc]

theorem jsMapOfColumns_nodup (cols : List ColumnDefinition)
    (h : (cols.map (·.name)).Nodup) :
    jsMapOfColumns cols = cols.map (fun c => (c.name, c)) := by
  suffices hs : ∀ m : List (String × ColumnDefinition),
      (∀ x ∈ cols, jsMapHas m x.name = false) → (cols.map (·.name)).Nodup →
      cols.foldl (fun m c => jsMapInsert m c.name c) m = m ++ cols.map (fun c => (c.name, c)) by
    simpa [jsMapOfColumns] using hs [] (by simp [jsMapHas]) h
  clear h
  induction cols with
  | nil => simp
  | cons c rest ih =>
    intro m hm hnd
    simp only [List.foldl_cons]
    have hcm : jsMapHas m c.name = false := hm c (by simp)
    have hins : jsMapInsert m c.name c = m ++ [(c.name, c)] := by
      unfold jsMapInsert
      rw [if_neg]
      intro hx
      rw [show (m.any fun e => e.1 = c.name) = jsMapHas m c.name from rfl, hcm] at hx
      exact Bool.noConfusion hx
    rw [hins, ih]
    · simp
    · intro x hx
      rw [show jsMapHas (m ++ [(c.name, c)]) x.name =
          (jsMapHas m x.name || jsMapHas [(c.name, c)] x.name) from by
        simp [jsMapHas, List.any_append]]
      rw [hm x (by simp [hx])]
      have hxnc : c.name ≠ x.name := by
        simp only [List.map_cons, List.nodup_cons] at hnd
        intro he
        exact hnd.1 (he ▸ List.mem_map_of_mem (·.name) hx)
      simp [jsMapHas, hxnc]
    · simp only [List.map_cons, List.nodup_cons] at hnd
      exact hnd.2

/-- C6: for every pair of table snapshots, a column of the new table whose
name is absent from the old table produces a `table_column_added` change of
category `addition`; its impact is `warning` exactly when the column is
NOT NULL (and then the description mentions "NOT NULL"), and `safe` otherwise. -/
theorem compareTableColumns_added (oldT newT : TableDefinition) (c : ColumnDefinition)
    (h1 : (newT.columns.map (·.name)).Nodup)
    (h2 : c ∈ newT.columns)
    (h3 : c.name ∉ oldT.columns.map (·.name)) :
    ∃ ch ∈ compareTableColumns oldT newT,
      ch.type = "table_column_added" ∧ ch.category = "addition" ∧
      ch.targetType = "table" ∧ ch.targetName = newT.name ∧
      ch.targetColumn = some c.name ∧
      ch.impact = (if boolTruthy (c.options.getD {}).notNull then "warning" else "safe") ∧
      (boolTruthy (c.options.getD {}).notNull = true →
        containsSub "NOT NULL".data ch.description.data = true) := by
  have hhas : jsMapHas (jsMapOfColumns oldT.columns) c.name = false := by
    rw [jsMapHas_ofColumns]
    simpa using h3
  have hmem : (c.name, c) ∈ (jsMapOfColumns newT.columns).filter
      (fun e => !jsMapHas (jsMapOfColumns oldT.columns) e.1) := by
    rw [jsMapOfColumns_nodup newT.columns h1, List.mem_filter]
    exact ⟨List.mem_map_of_mem (fun c => (c.name, c)) h2, by simp [hhas]⟩
  refine
    ⟨{ type := "table_column_added", category := "addition",
       impact := if boolTruthy (c.options.getD {}).notNull then "warning" else "safe",
       description := "Added column '" ++ c.name ++ "' to table '" ++ newT.name ++ "'" ++
         (if boolTruthy (c.options.getD {}).notNull then
           " (NOT NULL - requires default or data migration)" else ""),
       targetType := "table", targetName := newT.name,
       targetColumn := some c.name }, ?_, rfl, rfl, rfl, rfl, rfl, rfl, ?_⟩
  · unfold compareTableColumns
    refine List.mem_append_left _ (List.mem_append_left _ ?_)
    exact List.mem_map_of_mem _ hmem
  · intro hnn
    show containsSub "NOT NULL".data
      (("Added column '" ++ c.name ++ "' to table '" ++ newT.name ++ "'" ++
        (if boolTruthy (c.options.getD {}).notNull then
          " (NOT NULL - requires default or data migration)" else "")).data) = true
    rw [hnn, if_pos rfl, String.data_append]
    apply containsSub_append_right
    decide

/-- Instantiation of the added-column classification at a concrete NOT NULL
column. -/
theorem compareTableColumns_added_witness :
    ∃ ch ∈ compareTableColumns
      { name := "users", columns := [] }
      { name := "users",
        columns := [{ name := "email", type := some "string",
                      options := some { notNull := some true } }] },
      ch.type = "table_column_added" ∧ ch.category = "addition" ∧
      ch.targetType = "table" ∧ ch.targetName = "users" ∧
      ch.targetColumn = some "email" ∧
      ch.impact = "warning" ∧
      containsSub "NOT NULL".data ch.description.data = true := by
  obtain ⟨ch, hm, p1, p2, p3, p4, p5, p6, p7⟩ := compareTableColumns_added
    { name := "users", columns := [] }
    { name := "users",
      columns := [{ name := "email", type := some "string",
                    options := some { notNull := some true } }] }
    { name := "email", type := some "string", options := some { notNull := some true } }
    (by decide) (by simp) (by decide)
  exact ⟨ch, hm, p1, p2, p3, p4, p5, by simpa using p6, p7 (by decide)⟩

/-! ### C8: single-element composite primary keys are ignored -/

/-- C8 counterexample: a `TableDefinition` with a singleton composite key does
not always succeed (validation still applies first). -/
theorem tableGenerator_singletonPK_cex :
    (TableGenerator
      { name := "", columns := [], compositePrimaryKey := some ["id"] }).error =
        some "Table name is required." ∧
    (TableGenerator
      { name := "", columns := [], compositePrimaryKey := some ["id"] }).error ≠ none := by
  decide

theorem any_congr_mem {α : Type} {f g : α → Bool} {l : List α}
    (h : ∀ e ∈ l, f e = g e) : l.any f = l.any g := by
  induction l with
  | nil => rfl
  | cons x t ih =>
    simp only [List.any_cons, h x (by simp)]
    rw [ih fun e he => h e (by simp [he])]

theorem hasImport_addImportToMap (m : ImportMap) (p n q w : String) :
    hasImport (addImportToMap m p n) q w =
      (hasImport m q w || (p = q && n = w)) := by
  unfold addImportToMap
  by_cases hany : m.any (fun e => e.1 = p)
  · rw [if_pos hany]
    by_cases hpq : p = q ∧ n = w
    · obtain ⟨hpq1, hnw⟩ := hpq
      subst hpq1
      subst hnw
      simp only [decide_True, Bool.and_self, Bool.or_true]
      rw [List.any_eq_true] at hany
      obtain ⟨e, hem, hep⟩ := hany
      unfold hasImport
      rw [List.any_eq_true]
      refine ⟨(e.1, if n ∈ e.2 then e.2 else e.2 ++ [n]), ?_, ?_⟩
      · rw [List.mem_map]
        refine ⟨e, hem, ?_⟩
        simp only [decide_eq_true_eq] at hep
        simp [hep]
      · simp only [Bool.and_eq_true, decide_eq_true_eq]
        simp only [decide_eq_true_eq] at hep
        refine ⟨hep, ?_⟩
        by_cases hm : n ∈ e.2 <;> simp [hm]
    · have hor : (decide (p = q) && decide (n = w)) = false := by
        by_cases h1 : p = q
        · by_cases h2 : n = w
          · exact absurd ⟨h1, h2⟩ hpq
          · simp [h2]
        · simp [h1]
      rw [hor, Bool.or_false]
      unfold hasImport
      rw [List.any_map]
      apply any_congr_mem
      intro e _
      simp only [Function.comp]
      by_cases hep : e.1 = p
      · by_cases hq : p = q
        · subst hq
          have hnw : ¬ n = w := fun h2 => hpq ⟨rfl, h2⟩
          by_cases hm : n ∈ e.2
          · simp [hm, hep]
          · simp only [hm, if_neg, ite_false, hep, if_pos, decide_True, Bool.true_and]
            have : (w ∈ e.2 ++ [n]) = (w ∈ e.2) := by
              simp only [List.mem_append, List.mem_singleton, eq_iff_iff]
              exact ⟨fun h => h.elim id (fun hw => absurd hw.symm hnw), Or.inl⟩
            simp [this]
        · simp [hep, hq]
      · simp [hep]
  · rw [if_neg hany]
    unfold hasImport
    rw [List.any_append]
    simp only [List.any_cons, List.any_nil, Bool.or_false, List.mem_singleton]
    by_cases h1 : p = q
    · by_cases h2 : n = w
      · simp [h1, h2]
      · have h2' : ¬ w = n := fun hw => h2 hw.symm
        simp [h1, h2, h2']
    · simp [h1]

theorem hasImport_addImportsToMap (m : ImportMap) (p : String) (ns : List String)
    (q w : String) :
    hasImport (addImportsToMap m p ns) q w =
      (hasImport m q w || (p = q && ns.contains w)) := by
  induction ns generalizing m with
  | nil => simp [addImportsToMap]
  | cons n rest ih =>
    show hasImport (addImportsToMap (addImportToMap m p n) p rest) q w = _
    rw [ih, hasImport_addImportToMap]
    by_cases h1 : p = q
    · by_cases h2 : n = w
      · subst h2
        simp [h1, List.contains_cons, Bool.or_assoc]
      · have h2' : ¬ w = n := fun hw => h2 hw.symm
        simp [h1, h2, h2', List.contains_cons, Bool.or_assoc]
    · simp [h1]

theorem hasImport_mergeImportMaps (t s : ImportMap) (q w : String) :
    hasImport (mergeImportMaps t s) q w = (hasImport t q w || hasImport s q w) := by
  induction s generalizing t with
  | nil => simp [mergeImportMaps, hasImport]
  | cons e rest ih =>
    show hasImport (mergeImportMaps (addImportsToMap t e.1 e.2) rest) q w = _
    rw [ih, hasImport_addImportsToMap]
    unfold hasImport
    rw [List.any_cons]
    have hcw : (e.2.contains w) = decide (w ∈ e.2) := by
      by_cases h : w ∈ e.2 <;> simp [h]
    rw [hcw]
    by_cases h1 : e.1 = q
    · by_cases h2 : w ∈ e.2
      · simp [h1, h2, Bool.or_assoc, Bool.or_comm]
      · simp [h1, h2, Bool.or_assoc, Bool.or_comm]
    · simp [h1, Bool.or_assoc, Bool.or_comm]

theorem TypeMap_ne_primaryKey {s f : String} (h : TypeMap s = some f) :
    ¬ (f = "primaryKey") := by
  unfold TypeMap at h
  split at h <;> simp_all <;> subst h <;> decide

theorem enumsPath_ne_pgcore : ¬(("../enums/index.js" : String) = "drizzle-orm/pg-core") := by
  decide

theorem sqlPath_ne_pgcore : ¬(("drizzle-orm" : String) = "drizzle-orm/pg-core") := by
  decide

theorem tablesPath_ne_pgcore : ¬(("../tables/index.js" : String) = "drizzle-orm/pg-core") := by
  decide

theorem pgcore_ne_enumsPath : ¬(("drizzle-orm/pg-core" : String) = "../enums/index.js") := by
  decide

theorem pgcore_ne_sqlPath : ¬(("drizzle-orm/pg-core" : String) = "drizzle-orm") := by
  decide

theorem pgcore_ne_tablesPath : ¬(("drizzle-orm/pg-core" : String) = "../tables/index.js") := by
  decide

theorem enumsPath_ne_sqlPath : ¬(("../enums/index.js" : String) = "drizzle-orm") := by
  decide

theorem sqlPath_ne_enumsPath : ¬(("drizzle-orm" : String) = "../enums/index.js") := by
  decide

theorem enumsPath_ne_tablesPath : ¬(("../enums/index.js" : String) = "../tables/index.js") := by
  decide

theorem tablesPath_ne_enumsPath : ¬(("../tables/index.js" : String) = "../enums/index.js") := by
  decide

theorem sqlPath_ne_tablesPath : ¬(("drizzle-orm" : String) = "../tables/index.js") := by
  decide

theorem tablesPath_ne_sqlPath : ¬(("../tables/index.js" : String) = "drizzle-orm") := by
  decide

theorem helpersPath_ne_pgcore : ¬(("../helpers/index.js" : String) = "drizzle-orm/pg-core") := by
  decide

theorem mem_addImportToMap_nil {a : String} {b : List String} (p n : String) :
    ((a, b) ∈ addImportToMap [] p n) ↔ (a = p ∧ b = [n]) := by
  simp [addImportToMap]

theorem columnGenerator_no_primaryKey_import (c : ColumnDefinition) :
    hasImport (ColumnGenerator c).imports "drizzle-orm/pg-core" "primaryKey" = false := by
  unfold ColumnGenerator
  cases hinf : inferColumnType c.type (c.options.getD {}) with
  | none => simp [hinf, hasImport]
  | some it =>
    cases htm : TypeMap (jsToLower it) with
    | none => simp [hinf, htm, hasImport]
    | some f =>
      have hf : (decide (f = "primaryKey")) = false := by
        simp [TypeMap_ne_primaryKey htm]
      have hf2 : ¬ ("primaryKey" = f) := fun hh => (TypeMap_ne_primaryKey htm) hh.symm
      cases hdf : (c.options.getD {}).default with
      | none =>
        cases hrf : (c.options.getD {}).references with
        | none =>
          by_cases hen : jsToLower it = "enum"
          · rw [hen] at htm
            simp [hinf, htm, hdf, hrf, hen, hasImport_addImportToMap, hf, hasImport, mem_addImportToMap_nil, addImportToMap, enumsPath_ne_pgcore, sqlPath_ne_pgcore, tablesPath_ne_pgcore, pgcore_ne_enumsPath, pgcore_ne_sqlPath, pgcore_ne_tablesPath, enumsPath_ne_sqlPath, sqlPath_ne_enumsPath, enumsPath_ne_tablesPath, tablesPath_ne_enumsPath, sqlPath_ne_tablesPath, tablesPath_ne_sqlPath] <;> (intros; subst_vars; simp_all [hf2, addImportToMap, enumsPath_ne_pgcore, sqlPath_ne_pgcore, tablesPath_ne_pgcore, pgcore_ne_enumsPath, pgcore_ne_sqlPath, pgcore_ne_tablesPath, enumsPath_ne_sqlPath, sqlPath_ne_enumsPath, enumsPath_ne_tablesPath, tablesPath_ne_enumsPath, sqlPath_ne_tablesPath, tablesPath_ne_sqlPath])
          · simp [hinf, htm, hdf, hrf, hen, hasImport_addImportToMap, hf, hasImport, mem_addImportToMap_nil, addImportToMap, enumsPath_ne_pgcore, sqlPath_ne_pgcore, tablesPath_ne_pgcore, pgcore_ne_enumsPath, pgcore_ne_sqlPath, pgcore_ne_tablesPath, enumsPath_ne_sqlPath, sqlPath_ne_enumsPath, enumsPath_ne_tablesPath, tablesPath_ne_enumsPath, sqlPath_ne_tablesPath, tablesPath_ne_sqlPath] <;> (intros; subst_vars; simp_all [hf2, addImportToMap, enumsPath_ne_pgcore, sqlPath_ne_pgcore, tablesPath_ne_pgcore, pgcore_ne_enumsPath, pgcore_ne_sqlPath, pgcore_ne_tablesPath, enumsPath_ne_sqlPath, sqlPath_ne_enumsPath, enumsPath_ne_tablesPath, tablesPath_ne_enumsPath, sqlPath_ne_tablesPath, tablesPath_ne_sqlPath])
        | some r =>
          by_cases hen : jsToLower it = "enum"
          · rw [hen] at htm
            simp [hinf, htm, hdf, hrf, hen, hasImport_addImportToMap, hf, hasImport, mem_addImportToMap_nil, addImportToMap, enumsPath_ne_pgcore, sqlPath_ne_pgcore, tablesPath_ne_pgcore, pgcore_ne_enumsPath, pgcore_ne_sqlPath, pgcore_ne_tablesPath, enumsPath_ne_sqlPath, sqlPath_ne_enumsPath, enumsPath_ne_tablesPath, tablesPath_ne_enumsPath, sqlPath_ne_tablesPath, tablesPath_ne_sqlPath] <;> (intros; subst_vars; simp_all [hf2, addImportToMap, enumsPath_ne_pgcore, sqlPath_ne_pgcore, tablesPath_ne_pgcore, pgcore_ne_enumsPath, pgcore_ne_sqlPath, pgcore_ne_tablesPath, enumsPath_ne_sqlPath, sqlPath_ne_enumsPath, enumsPath_ne_tablesPath, tablesPath_ne_enumsPath, sqlPath_ne_tablesPath, tablesPath_ne_sqlPath])
          · simp [hinf, htm, hdf, hrf, hen, hasImport_addImportToMap, hf, hasImport, mem_addImportToMap_nil, addImportToMap, enumsPath_ne_pgcore, sqlPath_ne_pgcore, tablesPath_ne_pgcore, pgcore_ne_enumsPath, pgcore_ne_sqlPath, pgcore_ne_tablesPath, enumsPath_ne_sqlPath, sqlPath_ne_enumsPath, enumsPath_ne_tablesPath, tablesPath_ne_enumsPath, sqlPath_ne_tablesPath, tablesPath_ne_sqlPath] <;> (intros; subst_vars; simp_all [hf2, addImportToMap, enumsPath_ne_pgcore, sqlPath_ne_pgcore, tablesPath_ne_pgcore, pgcore_ne_enumsPath, pgcore_ne_sqlPath, pgcore_ne_tablesPath, enumsPath_ne_sqlPath, sqlPath_ne_enumsPath, enumsPath_ne_tablesPath, tablesPath_ne_enumsPath, sqlPath_ne_tablesPath, tablesPath_ne_sqlPath])
      | some dv =>
        cases hrf : (c.options.getD {}).references with
        | none =>
          by_cases hen : jsToLower it = "enum"
          · rw [hen] at htm
            rcases hrd : renderDefaultValue true dv with ⟨rv, sq⟩
            cases sq <;>
              simp [hinf, htm, hdf, hrf, hen, hrd, hasImport_addImportToMap, hf, hasImport, mem_addImportToMap_nil, addImportToMap, enumsPath_ne_pgcore, sqlPath_ne_pgcore, tablesPath_ne_pgcore, pgcore_ne_enumsPath, pgcore_ne_sqlPath, pgcore_ne_tablesPath, enumsPath_ne_sqlPath, sqlPath_ne_enumsPath, enumsPath_ne_tablesPath, tablesPath_ne_enumsPath, sqlPath_ne_tablesPath, tablesPath_ne_sqlPath] <;> (intros; subst_vars; simp_all [hf2, addImportToMap, enumsPath_ne_pgcore, sqlPath_ne_pgcore, tablesPath_ne_pgcore, pgcore_ne_enumsPath, pgcore_ne_sqlPath, pgcore_ne_tablesPath, enumsPath_ne_sqlPath, sqlPath_ne_enumsPath, enumsPath_ne_tablesPath, tablesPath_ne_enumsPath, sqlPath_ne_tablesPath, tablesPath_ne_sqlPath])
          · rcases hrd : renderDefaultValue false dv with ⟨rv, sq⟩
            cases sq <;>
              simp [hinf, htm, hdf, hrf, hen, hrd, hasImport_addImportToMap, hf, hasImport, mem_addImportToMap_nil, addImportToMap, enumsPath_ne_pgcore, sqlPath_ne_pgcore, tablesPath_ne_pgcore, pgcore_ne_enumsPath, pgcore_ne_sqlPath, pgcore_ne_tablesPath, enumsPath_ne_sqlPath, sqlPath_ne_enumsPath, enumsPath_ne_tablesPath, tablesPath_ne_enumsPath, sqlPath_ne_tablesPath, tablesPath_ne_sqlPath] <;> (intros; subst_vars; simp_all [hf2, addImportToMap, enumsPath_ne_pgcore, sqlPath_ne_pgcore, tablesPath_ne_pgcore, pgcore_ne_enumsPath, pgcore_ne_sqlPath, pgcore_ne_tablesPath, enumsPath_ne_sqlPath, sqlPath_ne_enumsPath, enumsPath_ne_tablesPath, tablesPath_ne_enumsPath, sqlPath_ne_tablesPath, tablesPath_ne_sqlPath])
        | some r =>
          by_cases hen : jsToLower it = "enum"
          · rw [hen] at htm
            rcases hrd : renderDefaultValue true dv with ⟨rv, sq⟩
            cases sq <;>
              simp [hinf, htm, hdf, hrf, hen, hrd, hasImport_addImportToMap, hf, hasImport, mem_addImportToMap_nil, addImportToMap, enumsPath_ne_pgcore, sqlPath_ne_pgcore, tablesPath_ne_pgcore, pgcore_ne_enumsPath, pgcore_ne_sqlPath, pgcore_ne_tablesPath, enumsPath_ne_sqlPath, sqlPath_ne_enumsPath, enumsPath_ne_tablesPath, tablesPath_ne_enumsPath, sqlPath_ne_tablesPath, tablesPath_ne_sqlPath] <;> (intros; subst_vars; simp_all [hf2, addImportToMap, enumsPath_ne_pgcore, sqlPath_ne_pgcore, tablesPath_ne_pgcore, pgcore_ne_enumsPath, pgcore_ne_sqlPath, pgcore_ne_tablesPath, enumsPath_ne_sqlPath, sqlPath_ne_enumsPath, enumsPath_ne_tablesPath, tablesPath_ne_enumsPath, sqlPath_ne_tablesPath, tablesPath_ne_sqlPath])
          · rcases hrd : renderDefaultValue false dv with ⟨rv, sq⟩
            cases sq <;>
              simp [hinf, htm, hdf, hrf, hen, hrd, hasImport_addImportToMap, hf, hasImport, mem_addImportToMap_nil, addImportToMap, enumsPath_ne_pgcore, sqlPath_ne_pgcore, tablesPath_ne_pgcore, pgcore_ne_enumsPath, pgcore_ne_sqlPath, pgcore_ne_tablesPath, enumsPath_ne_sqlPath, sqlPath_ne_enumsPath, enumsPath_ne_tablesPath, tablesPath_ne_enumsPath, sqlPath_ne_tablesPath, tablesPath_ne_sqlPath] <;> (intros; subst_vars; simp_all [hf2, addImportToMap, enumsPath_ne_pgcore, sqlPath_ne_pgcore, tablesPath_ne_pgcore, pgcore_ne_enumsPath, pgcore_ne_sqlPath, pgcore_ne_tablesPath, enumsPath_ne_sqlPath, sqlPath_ne_enumsPath, enumsPath_ne_tablesPath, tablesPath_ne_enumsPath, sqlPath_ne_tablesPath, tablesPath_ne_sqlPath])

theorem tableColumnsLoop_no_pk_import (cols : List ColumnDefinition) :
    ∀ codes imp tabs r, tableColumnsLoop cols codes imp tabs = .ok r →
      hasImport imp "drizzle-orm/pg-core" "primaryKey" = false →
      hasImport r.2.1 "drizzle-orm/pg-core" "primaryKey" = false := by
  induction cols with
  | nil =>
    intro codes imp tabs r hok himp
    unfold tableColumnsLoop at hok
    cases hok
    exact himp
  | cons c rest ih =>
    intro codes imp tabs r hok himp
    unfold tableColumnsLoop at hok
    cases hce : (ColumnGenerator c).error with
    | some e => rw [hce] at hok; cases hok
    | none =>
      rw [hce] at hok
      refine ih _ _ _ _ hok ?_
      rw [hasImport_mergeImportMaps, himp, columnGenerator_no_primaryKey_import]
      rfl

/-- C8 amended: a singleton `compositePrimaryKey` has no effect at all: the
generator output equals that of the same definition without a composite key
(hence no `primaryKey(...)` constraint block is appended), and the list of
pg-core imports never contains the `primaryKey` symbol. -/
theorem tableGenerator_singletonPK (d : TableDefinition) (x : String)
    (h : d.compositePrimaryKey = some [x]) :
    TableGenerator d = TableGenerator { d with compositePrimaryKey := none } ∧
    hasImport (TableGenerator d).imports "drizzle-orm/pg-core" "primaryKey" = false := by
  constructor
  · obtain ⟨nm, db, cols, hr, cpk⟩ := d
    simp only at h
    subst h
    unfold TableGenerator
    simp
  · unfold TableGenerator
    dsimp only
    split
    · simp [hasImport]
    · split
      · simp [hasImport]
      · rw [h]
        cases heq : tableColumnsLoop d.columns []
            (addImportToMap [] "drizzle-orm/pg-core" "pgTable") [] with
        | error e => simp [heq, hasImport]
        | ok r =>
          obtain ⟨codes, imp1, tabs⟩ := r
          have himp1 := tableColumnsLoop_no_pk_import d.columns _ _ _
            (codes, imp1, tabs) heq (by decide)
          simp only at himp1
          simp only [heq]
          simp only [List.length_singleton, gt_iff_lt, lt_self_iff_false, if_false]
          split
          · rw [hasImport_addImportsToMap, himp1]
            simp [helpersPath_ne_pgcore]
          · exact himp1

/-- Instantiation of the precedence theorem at a column with both a `string`
type and an enum reference. -/
theorem columnGenerator_enumValues_scope_witness :
    (jsToLower ((some "string" : Option String).getD "") ≠ "enum" →
      ColumnGenerator
        { name := "status", type := some "string",
          options := some { enumValues := some "UserStatus" } } =
      ColumnGenerator
        { name := "status", type := some "string",
          options := some
            { ((some { enumValues := some "UserStatus" } : Option ColumnOptions).getD {}) with
              enumValues := none } }) ∧
    (jsToLower ((some "string" : Option String).getD "") = "enum" →
      ColumnGenerator
        { name := "status", type := some "string",
          options := some { enumValues := some "UserStatus" } } =
      ColumnGenerator
        { name := "status", type := none,
          options := some { enumValues := some "UserStatus" } }) :=
  columnGenerator_enumValues_scope
    { name := "status", type := some "string",
      options := some { enumValues := some "UserStatus" } }
    (by decide) (by decide)

/-- Instantiation of the singleton composite-key theorem at a one-column
table. -/
theorem tableGenerator_singletonPK_witness :
    TableGenerator
      { name := "users", columns := [{ name := "id", type := some "serial" }],
        compositePrimaryKey := some ["id"] } =
    TableGenerator
      { name := "users", columns := [{ name := "id", type := some "serial" }],
        compositePrimaryKey := none } ∧
    hasImport (TableGenerator
      { name := "users", columns := [{ name := "id", type := some "serial" }],
        compositePrimaryKey := some ["id"] }).imports
      "drizzle-orm/pg-core" "primaryKey" = false :=
  tableGenerator_singletonPK
    { name := "users", columns := [{ name := "id", type := some "serial" }],
      compositePrimaryKey := some ["id"] } "id" rfl

/-! ### C5: self-comparison of a schema -/

theorem filter_not_contains_self (l : List String) :
    l.filter (fun v => !l.contains v) = [] := by
  rw [List.filter_eq_nil_iff]
  intro a ha
  simp [ha]

theorem filter_not_map_contains {α : Type} (f : α → String) (l : List α) :
    l.filter (fun e => !(l.map f).contains (f e)) = [] := by
  rw [List.filter_eq_nil_iff]
  intro a ha
  simp
  exact ⟨a, ha, rfl⟩

theorem foldl_fixed {α β : Type} (f : β → α → β) (l : List α) (b : β)
    (h : ∀ acc, ∀ x ∈ l, f acc x = acc) : l.foldl f b = b := by
  induction l generalizing b with
  | nil => rfl
  | cons x xs ih =>
    rw [List.foldl_cons, h b x (by simp)]
    exact ih b (fun acc y hy => h acc y (by simp [hy]))

theorem find?_name_self {α : Type} (f : α → String) (l : List α)
    (h : (l.map f).Nodup) (a : α) (ha : a ∈ l) :
    l.find? (fun x => f x = f a) = some a := by
  induction l with
  | nil => cases ha
  | cons b bs ih =>
    rw [List.map_cons, List.nodup_cons] at h
    rcases List.mem_cons.mp ha with hab | hmem
    · subst hab
      simp [List.find?_cons]
    · by_cases hfb : f b = f a
      · exact absurd (hfb ▸ List.mem_map_of_mem f hmem) h.1
      · rw [List.find?_cons, decide_eq_false hfb]
        exact ih h.2 hmem

theorem compareEnumValues_self (e : EnumDefinition) :
    compareEnumValues e e = [] := by
  simp only [compareEnumValues, filter_not_contains_self, List.map_nil,
    List.append_nil]

theorem compareEnums_self (l : List EnumDefinition)
    (h : (l.map (fun e => e.name)).Nodup) :
    compareEnums l l = [] := by
  have hadd : l.filter (fun e => !(l.map fun e => e.name).contains e.name) = [] :=
    filter_not_map_contains (fun e => e.name) l
  have hfold : l.foldl (fun acc newEnum =>
      match l.find? (fun e => e.name = newEnum.name) with
      | some currentEnum => acc ++ compareEnumValues currentEnum newEnum
      | none => acc) [] = ([] : List SchemaChange) := by
    apply foldl_fixed
    intro acc x hx
    have hf : l.find? (fun e => e.name = x.name) = some x :=
      find?_name_self (fun e => e.name) l h x hx
    simp only [hf, compareEnumValues_self, List.append_nil]
  simp only [compareEnums, hadd, List.map_nil, List.nil_append, hfold, List.append_nil]

theorem jsMapHas_of_mem {α : Type} (m : List (String × α)) (e : String × α)
    (he : e ∈ m) : jsMapHas m e.1 = true := by
  unfold jsMapHas
  exact List.any_eq_true.mpr ⟨e, he, by simp⟩

theorem jsMapInsert_keys {α : Type} (m : List (String × α)) (k : String) (v : α) :
    (jsMapInsert m k v).map Prod.fst =
      if jsMapHas m k then m.map Prod.fst else m.map Prod.fst ++ [k] := by
  unfold jsMapInsert jsMapHas
  by_cases h : (m.any fun e => e.1 = k) = true
  · simp only [h, if_true, List.map_map]
    congr 1
    funext e
    by_cases he : e.1 = k <;> simp [he]
  · simp only [h, if_false]
    simp

theorem jsMapOfColumns_keys_nodup (cols : List ColumnDefinition) :
    ((jsMapOfColumns cols).map Prod.fst).Nodup := by
  suffices h : ∀ m : List (String × ColumnDefinition), (m.map Prod.fst).Nodup →
      ((cols.foldl (fun m c => jsMapInsert m c.name c) m).map Prod.fst).Nodup by
    exact h [] List.nodup_nil
  induction cols with
  | nil => intro m hm; exact hm
  | cons c rest ih =>
    intro m hm
    rw [List.foldl_cons]
    apply ih
    rw [jsMapInsert_keys]
    by_cases h : jsMapHas m c.name = true
    · simp only [h, if_true]
      exact hm
    · simp only [h, Bool.false_eq_true, if_false]
      rw [List.nodup_append]
      refine ⟨hm, List.nodup_singleton _, ?_⟩
      intro x hx hx1
      rcases List.mem_map.mp hx with ⟨e, he, hex⟩
      rcases List.mem_singleton.mp hx1 with rfl
      exact h (hex ▸ jsMapHas_of_mem m e he)

theorem jsMapGet_self {α : Type} (m : List (String × α))
    (h : (m.map Prod.fst).Nodup) (e : String × α) (he : e ∈ m) :
    jsMapGet m e.1 = some e.2 := by
  unfold jsMapGet
  have hf : m.find? (fun p => p.1 = e.1) = some e :=
    find?_name_self Prod.fst m h e he
  rw [hf]
  rfl

theorem compareColumnDefinitions_self (c : ColumnDefinition) (tt tn : String) :
    compareColumnDefinitions c c tt tn = [] := by
  simp [compareColumnDefinitions]

theorem compareHelperColumns_self (h : HelperDefinition) :
    compareHelperColumns h h = [] := by
  have hfil : (jsMapOfColumns h.columns).filter
      (fun e => !jsMapHas (jsMapOfColumns h.columns) e.1) = [] := by
    rw [List.filter_eq_nil_iff]
    intro e he
    simp [jsMapHas_of_mem _ e he]
  have hfold : (jsMapOfColumns h.columns).foldl (fun acc e =>
      match jsMapGet (jsMapOfColumns h.columns) e.1 with
      | some currentColumn =>
        acc ++ compareColumnDefinitions currentColumn e.2 "helper" h.name
      | none => acc) [] = ([] : List SchemaChange) := by
    apply foldl_fixed
    intro acc e he
    have hg : jsMapGet (jsMapOfColumns h.columns) e.1 = some e.2 :=
      jsMapGet_self _ (jsMapOfColumns_keys_nodup h.columns) e he
    simp only [hg, compareColumnDefinitions_self, List.append_nil]
  simp only [compareHelperColumns, hfil, List.map_nil, List.nil_append, hfold,
    List.append_nil]

theorem compareHelpers_self (l : List HelperDefinition)
    (h : (l.map (fun x => x.name)).Nodup) :
    compareHelpers l l = [] := by
  have hadd : l.filter (fun e => !(l.map fun x => x.name).contains e.name) = [] :=
    filter_not_map_contains (fun x => x.name) l
  have hfold : l.foldl (fun acc newHelper =>
      match l.find? (fun x => x.name = newHelper.name) with
      | some currentHelper => acc ++ compareHelperColumns currentHelper newHelper
      | none => acc) [] = ([] : List SchemaChange) := by
    apply foldl_fixed
    intro acc x hx
    have hf : l.find? (fun e => e.name = x.name) = some x :=
      find?_name_self (fun e => e.name) l h x hx
    simp only [hf, compareHelperColumns_self, List.append_nil]
  simp only [compareHelpers, hadd, List.map_nil, List.nil_append, hfold,
    List.append_nil]

theorem compareTableColumns_self (t : TableDefinition) :
    compareTableColumns t t = [] := by
  have hfil : (jsMapOfColumns t.columns).filter
      (fun e => !jsMapHas (jsMapOfColumns t.columns) e.1) = [] := by
    rw [List.filter_eq_nil_iff]
    intro e he
    simp [jsMapHas_of_mem _ e he]
  have hfold : (jsMapOfColumns t.columns).foldl (fun acc e =>
      match jsMapGet (jsMapOfColumns t.columns) e.1 with
      | some currentColumn =>
        acc ++ compareColumnDefinitions currentColumn e.2 "table" t.name
      | none => acc) [] = ([] : List SchemaChange) := by
    apply foldl_fixed
    intro acc e he
    have hg : jsMapGet (jsMapOfColumns t.columns) e.1 = some e.2 :=
      jsMapGet_self _ (jsMapOfColumns_keys_nodup t.columns) e he
    simp only [hg, compareColumnDefinitions_self, List.append_nil]
  simp only [compareTableColumns, hfil, List.map_nil, List.nil_append, hfold,
    List.append_nil]

theorem compareHelperReferences_self (t : TableDefinition) :
    compareHelperReferences t t = [] := by
  have hfil : (dedupKeepFirst (t.helperReferences.getD [])).filter
      (fun r => !(dedupKeepFirst (t.helperReferences.getD [])).contains r) = [] :=
    filter_not_contains_self _
  simp only [compareHelperReferences, hfil, List.map_nil, List.append_nil]

theorem any_not_contains_self (l : List String) :
    l.any (fun c => !l.contains c) = false := by
  rw [List.any_eq_false]
  intro a ha
  simp [ha]

theorem compareCompositePrimaryKeys_self (t : TableDefinition) :
    compareCompositePrimaryKeys t t = [] := by
  simp [compareCompositePrimaryKeys, any_not_contains_self]

theorem compareTableStructure_self (t : TableDefinition) :
    compareTableStructure t t = [] := by
  simp only [compareTableStructure, compareTableColumns_self,
    compareHelperReferences_self, compareCompositePrimaryKeys_self,
    List.append_nil]

theorem compareTables_self (l : List TableDefinition)
    (h : (l.map (fun x => x.name)).Nodup) :
    compareTables l l = [] := by
  have hadd : l.filter (fun e => !(l.map fun x => x.name).contains e.name) = [] :=
    filter_not_map_contains (fun x => x.name) l
  have hfold : l.foldl (fun acc newTable =>
      match l.find? (fun x => x.name = newTable.name) with
      | some currentTable => acc ++ compareTableStructure currentTable newTable
      | none => acc) [] = ([] : List SchemaChange) := by
    apply foldl_fixed
    intro acc x hx
    have hf : l.find? (fun e => e.name = x.name) = some x :=
      find?_name_self (fun e => e.name) l h x hx
    simp only [hf, compareTableStructure_self, List.append_nil]
  simp only [compareTables, hadd, List.map_nil, List.nil_append, hfold,
    List.append_nil]

/-- C5 counterexample: a schema whose enums list repeats a name makes
self-comparison report changes (the name-matched loop pairs each duplicate
with the first occurrence). -/
theorem compareSchemas_self_cex :
    (compareSchemas
        { outputDir := "out", enums := some [⟨"A", ["x"]⟩, ⟨"A", ["y"]⟩] }
        { outputDir := "out", enums := some [⟨"A", ["x"]⟩, ⟨"A", ["y"]⟩] }).changes
      ≠ [] := by
  decide

/-- C5 (amended): when the enum, helper and table name lists are each free of
duplicates, comparing a schema with itself yields no changes and exactly the
"no changes" recommendation. -/
theorem compareSchemas_self (s : ProjectGeneratorConfig)
    (he : ((s.enums.getD []).map (fun e => e.name)).Nodup)
    (hh : ((s.helpers.getD []).map (fun h => h.name)).Nodup)
    (ht : ((s.tables.getD []).map (fun t => t.name)).Nodup) :
    (compareSchemas s s).changes = [] ∧
    (compareSchemas s s).recommendations = [noChangesRecommendation] := by
  have hch : compareEnums (s.enums.getD []) (s.enums.getD []) ++
      compareHelpers (s.helpers.getD []) (s.helpers.getD []) ++
      compareTables (s.tables.getD []) (s.tables.getD []) = [] := by
    rw [compareEnums_self _ he, compareHelpers_self _ hh, compareTables_self _ ht]
    rfl
  have h2 : (compareSchemas s s).changes = [] := hch
  refine ⟨h2, ?_⟩
  have h3 : (compareSchemas s s).recommendations =
      generateRecommendations (compareSchemas s s).changes := rfl
  rw [h3, h2]
  rfl

/-- Instantiation of the self-comparison theorem at a small duplicate-free
schema. -/
theorem compareSchemas_self_witness :
    (compareSchemas
        { outputDir := "out",
          enums := some [⟨"Status", ["active", "inactive"]⟩],
          helpers := some [⟨"timestamps", [{ name := "createdAt", type := some "date" }]⟩],
          tables := some [{ name := "users",
                            columns := [{ name := "id", type := some "serial" }] }] }
        { outputDir := "out",
          enums := some [⟨"Status", ["active", "inactive"]⟩],
          helpers := some [⟨"timestamps", [{ name := "createdAt", type := some "date" }]⟩],
          tables := some [{ name := "users",
                            columns := [{ name := "id", type := some "serial" }] }] }).changes
      = [] ∧
    (compareSchemas
        { outputDir := "out",
          enums := some [⟨"Status", ["active", "inactive"]⟩],
          helpers := some [⟨"timestamps", [{ name := "createdAt", type := some "date" }]⟩],
          tables := some [{ name := "users",
                            columns := [{ name := "id", type := some "serial" }] }] }
        { outputDir := "out",
          enums := some [⟨"Status", ["active", "inactive"]⟩],
          helpers := some [⟨"timestamps", [{ name := "createdAt", type := some "date" }]⟩],
          tables := some [{ name := "users",
                            columns := [{ name := "id", type := some "serial" }] }] }).recommendations
      = [noChangesRecommendation] :=
  compareSchemas_self
    { outputDir := "out",
      enums := some [⟨"Status", ["active", "inactive"]⟩],
      helpers := some [⟨"timestamps", [{ name := "createdAt", type := some "date" }]⟩],
      tables := some [{ name := "users",
                        columns := [{ name := "id", type := some "serial" }] }] }
    (by decide) (by decide) (by decide)

/-! ### C3: table name and dbName from a decoded table file -/

/-- C3 counterexample: for `userRoles.ts` declaring `pgTable('user_roles', ...)`,
the db identifier equals snake_case(name) lower-cased, yet `dbName` is still
recorded — the code compares against `name.toLowerCase()` ("userroles"), not
against the snake_case form. -/
theorem parseTableContent_dbName_cex :
    (parseTableContent
        "export const userroles = pgTable('user_roles', \x7b\n    userId: integer('userId')\n\x7d);"
        "userRoles.ts").map (fun t => t.dbName) = some (some "user_roles") ∧
    jsToLower (SnakeCase "userRoles") = "user_roles" := by
  decide

/-- C3 (amended): a decoded table's name is the filename with the first
occurrence of ".ts" removed, and `dbName` is recorded exactly when the captured
db identifier differs from the lower-cased name. -/
theorem parseTableContent_name_dbName (content filename : String)
    (t : TableDefinition) (h : parseTableContent content filename = some t) :
    t.name = ⟨removeFirstSub ".ts".data filename.data⟩ ∧
    (∀ db, t.dbName = some db → db ≠ jsToLower t.name) ∧
    (t.dbName = none →
      ∃ v body, scanFirst matchTableDeclAt content.data =
        some (v, (jsToLower t.name).data, body)) := by
  unfold parseTableContent at h
  cases hscan : scanFirst matchTableDeclAt content.data with
  | none =>
    rw [hscan] at h
    cases h
  | some r =>
    obtain ⟨v, db, body⟩ := r
    rw [hscan] at h
    injection h with h
    subst h
    refine ⟨rfl, ?_, ?_⟩
    · intro db' hdb
      by_cases hne : (⟨db⟩ : String) ≠ jsToLower (⟨removeFirstSub ".ts".data filename.data⟩ : String)
      · simp only [if_pos hne] at hdb
        injection hdb with hdb
        exact hdb ▸ hne
      · simp only [if_neg hne] at hdb
        cases hdb
    · intro hnone
      by_cases hne : (⟨db⟩ : String) ≠ jsToLower (⟨removeFirstSub ".ts".data filename.data⟩ : String)
      · simp only [if_pos hne] at hnone
        cases hnone
      · rw [not_not] at hne
        refine ⟨v, body, ?_⟩
        have hdb : db = (jsToLower (⟨removeFirstSub ".ts".data filename.data⟩ : String)).data :=
          congrArg String.data hne
        rw [hdb]

/-- Instantiation of the name/dbName theorem at a concrete decoded file. -/
theorem parseTableContent_name_dbName_witness :
    (⟨"users", none, [⟨"id", some "serial", none⟩], none, none⟩ : TableDefinition).name =
      ⟨removeFirstSub ".ts".data "users.ts".data⟩ ∧
    (∀ db,
      (⟨"users", none, [⟨"id", some "serial", none⟩], none, none⟩ : TableDefinition).dbName =
        some db → db ≠ jsToLower (⟨"users", none, [⟨"id", some "serial", none⟩], none, none⟩ : TableDefinition).name) ∧
    ((⟨"users", none, [⟨"id", some "serial", none⟩], none, none⟩ : TableDefinition).dbName =
        none →
      ∃ v body, scanFirst matchTableDeclAt
        "export const users = pgTable('users', \x7b\n    id: serial('id')\n\x7d);".data =
        some (v, (jsToLower (⟨"users", none, [⟨"id", some "serial", none⟩], none, none⟩ : TableDefinition).name).data, body)) :=
  parseTableContent_name_dbName
    "export const users = pgTable('users', \x7b\n    id: serial('id')\n\x7d);"
    "users.ts"
    ⟨"users", none, [⟨"id", some "serial", none⟩], none, none⟩
    (by decide)

/-! ### C7: enum value round-trip through PascalCase and re-snaking -/

theorem charOfNat_toNat {n : Nat} (h : n < 55296) : (Char.ofNat n).toNat = n := by
  have hv : n.isValidChar := Or.inl h
  rw [Char.ofNat, dif_pos hv]
  simp [Char.toNat, Char.ofNatAux, UInt32.toNat, UInt32.ofNatCore]

theorem char_isUpper_iff (c : Char) : c.isUpper = true ↔ 65 ≤ c.toNat ∧ c.toNat ≤ 90 := by
  unfold Char.isUpper
  simp only [Bool.and_eq_true, decide_eq_true_eq]
  exact Iff.rfl

theorem char_isLower_iff (c : Char) : c.isLower = true ↔ 97 ≤ c.toNat ∧ c.toNat ≤ 122 := by
  unfold Char.isLower
  simp only [Bool.and_eq_true, decide_eq_true_eq]
  exact Iff.rfl

theorem char_isDigit_iff (c : Char) : c.isDigit = true ↔ 48 ≤ c.toNat ∧ c.toNat ≤ 57 := by
  unfold Char.isDigit
  simp only [Bool.and_eq_true, decide_eq_true_eq]
  exact Iff.rfl

theorem toUpper_isUpper {c : Char} (h : c.isAlpha = true) : (c.toUpper).isUpper = true := by
  unfold Char.isAlpha at h
  rcases Bool.or_eq_true_iff.mp h with hu | hl
  · rw [char_isUpper_iff] at hu
    unfold Char.toUpper
    rw [if_neg (by omega : ¬(97 ≤ c.toNat ∧ c.toNat ≤ 122))]
    rw [char_isUpper_iff]
    exact hu
  · rw [char_isLower_iff] at hl
    unfold Char.toUpper
    rw [if_pos (by omega : (97 ≤ c.toNat ∧ c.toNat ≤ 122))]
    rw [char_isUpper_iff, charOfNat_toNat (by omega)]
    omega

theorem toUpper_toLower {c : Char} (h : c.isAlpha = true) : (c.toUpper).toLower = c.toLower := by
  unfold Char.isAlpha at h
  rcases Bool.or_eq_true_iff.mp h with hu | hl
  · rw [char_isUpper_iff] at hu
    unfold Char.toUpper
    rw [if_neg (by omega : ¬(97 ≤ c.toNat ∧ c.toNat ≤ 122))]
  · rw [char_isLower_iff] at hl
    unfold Char.toUpper Char.toLower
    rw [if_pos (by omega : (97 ≤ c.toNat ∧ c.toNat ≤ 122))]
    rw [if_pos]
    · rw [if_neg (by omega : ¬(65 ≤ c.toNat ∧ c.toNat ≤ 90))]
      apply Char.ext
      have h1 : (Char.ofNat (c.toNat - 32)).toNat = c.toNat - 32 := charOfNat_toNat (by omega)
      have h2 : (Char.ofNat ((Char.ofNat (c.toNat - 32)).toNat + 32)).toNat =
          (Char.ofNat (c.toNat - 32)).toNat + 32 := by
        rw [h1]
        exact charOfNat_toNat (by omega)
      have h3 : (Char.ofNat ((Char.ofNat (c.toNat - 32)).toNat + 32)).toNat = c.toNat := by
        rw [h2, h1]
        omega
      have hval : ∀ a b : Char, a.toNat = b.toNat → a.val = b.val := by
        intro a b hab
        exact UInt32.toNat.inj hab
      exact hval _ _ h3
    · rw [charOfNat_toNat (by omega)]
      omega

theorem toLower_not_isUpper {c : Char} : (c.toLower).isUpper = false := by
  unfold Char.toLower
  by_cases h : 65 ≤ c.toNat ∧ c.toNat ≤ 90
  · rw [if_pos h]
    rw [Bool.eq_false_iff]
    intro hx
    rw [char_isUpper_iff, charOfNat_toNat (by omega)] at hx
    omega
  · rw [if_neg h]
    rw [Bool.eq_false_iff]
    intro hx
    rw [char_isUpper_iff] at hx
    omega

theorem intercalate_singleton (s a : List Char) : List.intercalate s [a] = a := by
  simp [List.intercalate]

theorem intercalate_cons_cons (s a b : List Char) (bs : List (List Char)) :
    List.intercalate s (a :: b :: bs) = a ++ s ++ List.intercalate s (b :: bs) := by
  simp [List.intercalate]

theorem splitOnChar_ne_nil (sep : Char) (l : List Char) : splitOnChar sep l ≠ [] := by
  induction l with
  | nil => simp [splitOnChar]
  | cons c t ih =>
    simp only [splitOnChar]
    by_cases h : c = sep
    · simp [h]
    · simp only [h, if_false]
      cases hr : splitOnChar sep t with
      | nil => simp
      | cons x xs => simp

theorem intercalate_splitOnChar (sep : Char) (l : List Char) :
    List.intercalate [sep] (splitOnChar sep l) = l := by
  induction l with
  | nil => simp [splitOnChar, intercalate_singleton]
  | cons c t ih =>
    simp only [splitOnChar]
    by_cases h : c = sep
    · subst h
      rw [if_pos rfl]
      cases hr : splitOnChar c t with
      | nil => exact absurd hr (splitOnChar_ne_nil c t)
      | cons x xs =>
        rw [intercalate_cons_cons]
        rw [hr] at ih
        rw [ih]
        simp
    · simp only [h, if_false]
      cases hr : splitOnChar sep t with
      | nil => exact absurd hr (splitOnChar_ne_nil sep t)
      | cons x xs =>
        cases xs with
        | nil =>
          rw [intercalate_singleton]
          rw [hr, intercalate_singleton] at ih
          rw [ih]
        | cons y ys =>
          rw [intercalate_cons_cons]
          rw [hr, intercalate_cons_cons] at ih
          simp only [List.cons_append]
          rw [ih]

theorem splitOnChar_no_sep (sep : Char) (l : List Char) (h : l.all (fun c => !(c = sep)) = true) :
    splitOnChar sep l = [l] := by
  induction l with
  | nil => rfl
  | cons c t ih =>
    rw [List.all_cons, Bool.and_eq_true] at h
    simp only [splitOnChar]
    have hc : ¬ c = sep := by
      intro hcs
      rw [hcs] at h
      simp at h
    rw [if_neg hc, ih h.2]

theorem splitSepRunsWord_append (w : List Char)
    (hw : w.all (fun c => !(c = '_' || c = '-')) = true) :
    ∀ acc r, splitSepRunsWord acc (w ++ r) = splitSepRunsWord (w.reverse ++ acc) r := by
  induction w with
  | nil => intro acc r; simp
  | cons c t ih =>
    intro acc r
    rw [List.all_cons, Bool.and_eq_true] at hw
    have hc : (c = '_' || c = '-') = false := by
      rcases hw with ⟨h1, _⟩
      rwa [Bool.not_eq_true'] at h1
    rw [List.cons_append]
    show (if c = '_' || c = '-' then _ else splitSepRunsWord (c :: acc) (t ++ r)) = _
    rw [hc, if_neg (by simp)]
    rw [ih hw.2 (c :: acc) r]
    congr 1
    simp

theorem splitSepRunsWord_nil_eq (acc : List Char) :
    splitSepRunsWord acc [] = [acc.reverse] := rfl

theorem splitSepRunsWord_sep (acc : List Char) (r : List Char) :
    splitSepRunsWord acc ('_' :: r) = acc.reverse :: splitSepRunsRun r := by
  show (if '_' = '_' || '_' = '-' then acc.reverse :: splitSepRunsRun r else _) = _
  rw [if_pos (by simp)]

theorem splitSepRunsRun_word (c : Char) (t : List Char)
    (hc : (c = '_' || c = '-') = false) :
    splitSepRunsRun (c :: t) = splitSepRunsWord [c] t := by
  show (if c = '_' || c = '-' then _ else splitSepRunsWord [c] t) = _
  rw [hc, if_neg (by simp)]

theorem splitSepRunsRun_intercalate (segs : List (List Char))
    (hne : segs ≠ [])
    (h : ∀ s ∈ segs, s ≠ [] ∧ s.all (fun c => !(c = '_' || c = '-')) = true) :
    splitSepRunsRun (List.intercalate ['_'] segs) = segs := by
  induction segs with
  | nil => cases hne rfl
  | cons s rest ih =>
    obtain ⟨hs, hsf⟩ := h s (by simp)
    cases s with
    | nil => cases hs rfl
    | cons c t =>
      rw [List.all_cons, Bool.and_eq_true] at hsf
      have hc : (c = '_' || c = '-') = false := by
        rcases hsf with ⟨h1, _⟩
        rwa [Bool.not_eq_true'] at h1
      cases rest with
      | nil =>
        rw [intercalate_singleton, splitSepRunsRun_word c t hc]
        have happ := splitSepRunsWord_append t hsf.2 [c] []
        rw [List.append_nil] at happ
        rw [happ, splitSepRunsWord_nil_eq]
        simp
      | cons s2 rest2 =>
        rw [intercalate_cons_cons]
        have hassoc : (c :: t) ++ ['_'] ++ List.intercalate ['_'] (s2 :: rest2) =
            c :: (t ++ ('_' :: List.intercalate ['_'] (s2 :: rest2))) := by
          simp
        rw [hassoc, splitSepRunsRun_word c _ hc,
          splitSepRunsWord_append t hsf.2 [c] _,
          splitSepRunsWord_sep]
        rw [ih (by simp) (fun x hx => h x (by simp [hx]))]
        congr 1
        simp

theorem splitSepRuns_intercalate (segs : List (List Char)) (hne : segs ≠ [])
    (h : ∀ s ∈ segs, s ≠ [] ∧ s.all (fun c => !(c = '_' || c = '-')) = true) :
    splitSepRuns (List.intercalate ['_'] segs) = segs := by
  cases segs with
  | nil => cases hne rfl
  | cons s rest =>
    obtain ⟨hs, hsf⟩ := h s (by simp)
    cases s with
    | nil => cases hs rfl
    | cons c t =>
      rw [List.all_cons, Bool.and_eq_true] at hsf
      have hc : (c = '_' || c = '-') = false := by
        rcases hsf with ⟨h1, _⟩
        rwa [Bool.not_eq_true'] at h1
      unfold splitSepRuns
      cases rest with
      | nil =>
        rw [intercalate_singleton]
        show (if c = '_' || c = '-' then _ else splitSepRunsWord (c :: []) t) = _
        rw [hc, if_neg (by simp)]
        have happ := splitSepRunsWord_append t hsf.2 [c] []
        rw [List.append_nil] at happ
        rw [happ, splitSepRunsWord_nil_eq]
        simp
      | cons s2 rest2 =>
        rw [intercalate_cons_cons]
        have hassoc : (c :: t) ++ ['_'] ++ List.intercalate ['_'] (s2 :: rest2) =
            c :: (t ++ ('_' :: List.intercalate ['_'] (s2 :: rest2))) := by
          simp
        rw [hassoc]
        show (if c = '_' || c = '-' then _ else splitSepRunsWord (c :: []) _) = _
        rw [hc, if_neg (by simp)]
        rw [splitSepRunsWord_append t hsf.2 [c] _, splitSepRunsWord_sep]
        rw [splitSepRunsRun_intercalate (s2 :: rest2) (by simp)
          (fun x hx => h x (by simp [hx]))]
        congr 1
        simp

theorem char_toNat_inj {a b : Char} (h : a.toNat = b.toNat) : a = b :=
  Char.ext (UInt32.toNat.inj h)

theorem toLower_toNat (c : Char) : (c.toLower).toNat =
    if 65 ≤ c.toNat ∧ c.toNat ≤ 90 then c.toNat + 32 else c.toNat := by
  unfold Char.toLower
  by_cases h : 65 ≤ c.toNat ∧ c.toNat ≤ 90
  · rw [if_pos h, if_pos h, charOfNat_toNat (by omega)]
  · rw [if_neg h, if_neg h]

theorem char_isAlphanum_iff (c : Char) : c.isAlphanum = true ↔
    (48 ≤ c.toNat ∧ c.toNat ≤ 57) ∨ (65 ≤ c.toNat ∧ c.toNat ≤ 90) ∨
    (97 ≤ c.toNat ∧ c.toNat ≤ 122) := by
  unfold Char.isAlphanum Char.isAlpha
  simp only [Bool.or_eq_true]
  rw [char_isUpper_iff, char_isLower_iff, char_isDigit_iff]
  tauto

theorem toLower_isAlphanum {c : Char} (h : c.isAlphanum = true) :
    (c.toLower).isAlphanum = true := by
  rw [char_isAlphanum_iff] at h ⊢
  rw [toLower_toNat]
  by_cases h2 : 65 ≤ c.toNat ∧ c.toNat ≤ 90
  · rw [if_pos h2]
    omega
  · rw [if_neg h2]
    omega

theorem toUpper_toNat (c : Char) : (c.toUpper).toNat =
    if 97 ≤ c.toNat ∧ c.toNat ≤ 122 then c.toNat - 32 else c.toNat := by
  unfold Char.toUpper
  by_cases h : 97 ≤ c.toNat ∧ c.toNat ≤ 122
  · rw [if_pos h, if_pos h, charOfNat_toNat (by omega)]
  · rw [if_neg h, if_neg h]

theorem toUpper_isAlphanum {c : Char} (h : c.isAlpha = true) :
    (c.toUpper).isAlphanum = true := by
  unfold Char.isAlpha at h
  rcases Bool.or_eq_true_iff.mp h with hu | hl
  · rw [char_isUpper_iff] at hu
    rw [char_isAlphanum_iff, toUpper_toNat, if_neg (by omega)]
    omega
  · rw [char_isLower_iff] at hl
    rw [char_isAlphanum_iff, toUpper_toNat, if_pos (by omega)]
    omega

theorem char_alnum_ne {c : Char} (h : c.isAlphanum = true) (d : Char)
    (hd : d.toNat < 48 ∨ (57 < d.toNat ∧ d.toNat < 65) ∨
      (90 < d.toNat ∧ d.toNat < 97) ∨ 122 < d.toNat) : c ≠ d := by
  intro hcd
  subst hcd
  rw [char_isAlphanum_iff] at h
  omega

theorem segOk_chars {s : List Char} (h : segOk s = true) :
    s ≠ [] ∧ ∀ c ∈ s, c.isAlphanum = true := by
  cases s with
  | nil => cases (by simp [segOk] at h : False)
  | cons c t =>
    unfold segOk at h
    rw [Bool.and_eq_true, List.all_eq_true] at h
    refine ⟨by simp, ?_⟩
    intro d hd
    rcases List.mem_cons.mp hd with rfl | hdt
    · unfold Char.isAlphanum
      rw [h.1]
      rfl
    · exact h.2 d hdt

theorem segOk_sepFree {s : List Char} (h : segOk s = true) :
    s.all (fun c => !(c = '_' || c = '-')) = true := by
  rw [List.all_eq_true]
  intro c hc
  have halnum := (segOk_chars h).2 c hc
  have h1 : c ≠ '_' := char_alnum_ne halnum '_' (by right; right; left; constructor <;> decide)
  have h2 : c ≠ '-' := char_alnum_ne halnum '-' (by left; decide)
  simp [h1, h2]

theorem upperToSnake_ge1 (l : List Char) : ∀ i j,
    upperToSnake (i + 1) l = upperToSnake (j + 1) l := by
  induction l with
  | nil => intros; rfl
  | cons c t ih =>
    intro i j
    simp only [upperToSnake]
    congr 1
    · by_cases hc : c.isUpper <;> simp [hc]
    · exact ih (i + 1) (j + 1)

theorem upperToSnake_append (a : List Char) : ∀ b i,
    upperToSnake (i + 1) (a ++ b) = upperToSnake (i + 1) a ++ upperToSnake 1 b := by
  induction a with
  | nil =>
    intro b i
    simp only [List.nil_append, upperToSnake]
    exact upperToSnake_ge1 b i 0
  | cons c t ih =>
    intro b i
    simp only [List.cons_append, upperToSnake, List.append_eq]
    rw [ih b (i + 1)]
    simp [List.append_assoc]

theorem upperToSnake_zero_append (a b : List Char) (ha : a ≠ []) :
    upperToSnake 0 (a ++ b) = upperToSnake 0 a ++ upperToSnake 1 b := by
  cases a with
  | nil => cases ha rfl
  | cons c t =>
    simp only [List.cons_append, upperToSnake, List.append_eq]
    rw [upperToSnake_append t b 0]
    simp [List.append_assoc]

theorem upperToSnake_no_upper (l : List Char) (h : ∀ c ∈ l, c.isUpper = false) :
    ∀ i, upperToSnake i l = l := by
  induction l with
  | nil => intro i; rfl
  | cons c t ih =>
    intro i
    simp only [upperToSnake]
    rw [h c (by simp)]
    simp only [Bool.false_eq_true, if_false]
    rw [ih (fun d hd => h d (by simp [hd])) (i + 1)]
    rfl

theorem upperToSnake_cap_one {c : Char} {t : List Char} (hc : c.isAlpha = true) :
    upperToSnake 1 (capitalizeWord (c :: t)) = '_' :: (c :: t).map Char.toLower := by
  show upperToSnake 1 (c.toUpper :: t.map Char.toLower) = _
  simp only [upperToSnake]
  rw [toUpper_isUpper hc]
  simp only [if_true, gt_iff_lt, Nat.zero_lt_one, if_pos]
  rw [toUpper_toLower hc]
  rw [upperToSnake_no_upper _ (fun d hd => ?_) 2]
  · simp
  · obtain ⟨x, _, rfl⟩ := List.mem_map.mp hd
    exact toLower_not_isUpper

theorem upperToSnake_cap_zero {c : Char} {t : List Char} (hc : c.isAlpha = true) :
    upperToSnake 0 (capitalizeWord (c :: t)) = (c :: t).map Char.toLower := by
  show upperToSnake 0 (c.toUpper :: t.map Char.toLower) = _
  simp only [upperToSnake]
  rw [toUpper_isUpper hc]
  simp only [if_true, gt_iff_lt, Nat.lt_irrefl, if_neg, Nat.not_lt_zero]
  rw [toUpper_toLower hc]
  rw [upperToSnake_no_upper _ (fun d hd => ?_) 1]
  · simp
  · obtain ⟨x, _, rfl⟩ := List.mem_map.mp hd
    exact toLower_not_isUpper

theorem intercalate_nil_eq_join (l : List (List Char)) :
    List.intercalate [] l = l.join := by
  induction l with
  | nil => rfl
  | cons a rest ih =>
    cases rest with
    | nil => simp [intercalate_singleton]
    | cons b bs =>
      rw [intercalate_cons_cons, ih]
      simp

theorem upperToSnake_one_caps (rest : List (List Char))
    (h : ∀ s ∈ rest, segOk s = true) :
    upperToSnake 1 ((rest.map capitalizeWord).join) =
      (rest.map (fun s => '_' :: s.map Char.toLower)).join := by
  induction rest with
  | nil => rfl
  | cons s rs ih =>
    have hs := h s (by simp)
    cases s with
    | nil => cases (by simp [segOk] at hs : False)
    | cons c t =>
      have hc : c.isAlpha = true := by
        unfold segOk at hs
        rw [Bool.and_eq_true] at hs
        exact hs.1
      simp only [List.map_cons, List.join_cons]
      rw [upperToSnake_append (capitalizeWord (c :: t)) _ 0]
      rw [upperToSnake_cap_one hc, ih (fun x hx => h x (by simp [hx]))]
      simp

theorem map_toLower_intercalate (s : List Char) (rest : List (List Char)) :
    (List.intercalate ['_'] (s :: rest)).map Char.toLower =
      s.map Char.toLower ++ (rest.map (fun x => '_' :: x.map Char.toLower)).join := by
  induction rest generalizing s with
  | nil => simp [intercalate_singleton]
  | cons s2 rs ih =>
    rw [intercalate_cons_cons]
    simp only [List.map_append, List.map_cons, List.join_cons]
    rw [ih s2]
    have hl : Char.toLower '_' = '_' := by decide
    simp [hl, List.append_assoc]

theorem upperToSnake_pascal_segs (segs : List (List Char)) (hne : segs ≠ [])
    (h : ∀ s ∈ segs, segOk s = true) :
    upperToSnake 0 ((segs.map capitalizeWord).join) =
      (List.intercalate ['_'] segs).map Char.toLower := by
  cases segs with
  | nil => cases hne rfl
  | cons s rest =>
    have hs := h s (by simp)
    cases s with
    | nil => cases (by simp [segOk] at hs : False)
    | cons c t =>
      have hc : c.isAlpha = true := by
        unfold segOk at hs
        rw [Bool.and_eq_true] at hs
        exact hs.1
      simp only [List.map_cons, List.join_cons]
      rw [upperToSnake_zero_append _ _ (by simp [capitalizeWord])]
      rw [upperToSnake_cap_zero hc]
      rw [upperToSnake_one_caps rest (fun x hx => h x (by simp [hx]))]
      rw [map_toLower_intercalate]

theorem pascal_data_eq_join (v : String) (hv : snakeSegsOk v = true) :
    (PascalCase v).data =
      ((splitOnChar '_' v.data).map capitalizeWord).join := by
  unfold PascalCase
  unfold snakeSegsOk at hv
  rw [List.all_eq_true] at hv
  have hrec : List.intercalate ['_'] (splitOnChar '_' v.data) = v.data :=
    intercalate_splitOnChar '_' v.data
  have hruns : splitSepRuns v.data = splitOnChar '_' v.data := by
    conv_lhs => rw [← hrec]
    exact splitSepRuns_intercalate _ (splitOnChar_ne_nil '_' v.data)
      (fun s hs => ⟨(segOk_chars (hv s hs)).1, segOk_sepFree (hv s hs)⟩)
  rw [hruns]
  show List.intercalate []
      ((splitOnChar '_' v.data).map
        (fun piece => List.intercalate [' '] ((splitOnChar ' ' piece).map capitalizeWord))) =
    ((splitOnChar '_' v.data).map capitalizeWord).join
  rw [intercalate_nil_eq_join]
  congr 1
  apply List.map_congr_left
  intro s hs
  have hsp : splitOnChar ' ' s = [s] := by
    apply splitOnChar_no_sep
    rw [List.all_eq_true]
    intro c hc
    have : c ≠ ' ' :=
      char_alnum_ne ((segOk_chars (hv s hs)).2 c hc) ' ' (by left; decide)
    simp [this]
  rw [hsp]
  simp only [List.map_cons, List.map_nil]
  rw [intercalate_singleton]

theorem pascal_snake_decode (v : String) (hv : snakeSegsOk v = true) :
    upperToSnake 0 (PascalCase v).data = (jsToLower v).data := by
  rw [pascal_data_eq_join v hv]
  unfold snakeSegsOk at hv
  rw [List.all_eq_true] at hv
  rw [upperToSnake_pascal_segs _ (splitOnChar_ne_nil '_' v.data) hv]
  rw [intercalate_splitOnChar '_' v.data]
  rfl

theorem intercalate_eq_join (sep x : List Char) (xs : List (List Char)) :
    List.intercalate sep (x :: xs) = x ++ (xs.map (fun y => sep ++ y)).join := by
  induction xs generalizing x with
  | nil => simp [intercalate_singleton]
  | cons y ys ih =>
    rw [intercalate_cons_cons, ih y]
    simp [List.append_assoc]

theorem string_go_data (s : String) (l : List String) :
    ∀ acc : String, (String.intercalate.go acc s l).data =
      acc.data ++ (l.map (fun x => s.data ++ x.data)).join := by
  induction l with
  | nil =>
    intro acc
    simp [String.intercalate.go]
  | cons a as ih =>
    intro acc
    show (String.intercalate.go (acc ++ s ++ a) s as).data = _
    rw [ih (acc ++ s ++ a)]
    have h1 : (acc ++ s ++ a).data = acc.data ++ s.data ++ a.data := rfl
    rw [h1]
    simp [List.append_assoc]

theorem string_intercalate_data (s : String) (l : List String) :
    (String.intercalate s l).data = List.intercalate s.data (l.map String.data) := by
  cases l with
  | nil => rfl
  | cons a as =>
    show (String.intercalate.go a s as).data = _
    rw [string_go_data s as a, List.map_cons, intercalate_eq_join]
    rw [List.map_map]
    rfl

theorem wchar_toLower {c : Char} (h : wchar c = true) : wchar c.toLower = true := by
  unfold wchar at *
  rcases Bool.or_eq_true_iff.mp h with ha | he
  · rw [toLower_isAlphanum ha]
    rfl
  · have hc : c = '_' := by simpa using he
    subst hc
    decide

theorem wchar_ne {c : Char} (h : wchar c = true) (d : Char)
    (hd : (d.toNat < 48 ∨ (57 < d.toNat ∧ d.toNat < 65) ∨
        (90 < d.toNat ∧ d.toNat < 97) ∨ 122 < d.toNat) ∧ d.toNat ≠ 95) :
    c ≠ d := by
  unfold wchar at h
  rcases Bool.or_eq_true_iff.mp h with ha | he
  · exact char_alnum_ne ha d hd.1
  · have hc : c = '_' := by simpa using he
    subst hc
    intro hcd
    have : d.toNat = 95 := by rw [← hcd]; decide
    exact hd.2 this

theorem upperToSnake_wchar {l : List Char} (h : ∀ c ∈ l, wchar c = true) (i : Nat) :
    ∀ d ∈ upperToSnake i l, wchar d = true := by
  induction l generalizing i with
  | nil =>
    intro d hd
    cases hd
  | cons c t ih =>
    intro d hd
    simp only [upperToSnake] at hd
    rw [List.mem_append] at hd
    have hc := h c (by simp)
    rcases hd with hd | hd
    · by_cases hu : c.isUpper = true
      · rw [hu, if_pos rfl] at hd
        by_cases hi : i > 0
        · rw [if_pos hi] at hd
          rw [List.mem_cons] at hd
          rcases hd with rfl | hd
          · decide
          · rw [List.mem_singleton] at hd
            subst hd
            exact wchar_toLower hc
        · rw [if_neg hi] at hd
          rw [List.mem_singleton] at hd
          subst hd
          exact wchar_toLower hc
      · rw [Bool.not_eq_true] at hu
        rw [hu] at hd
        simp only [Bool.false_eq_true, if_false] at hd
        rw [List.mem_singleton] at hd
        subst hd
        exact hc
    · exact ih (fun x hx => h x (by simp [hx])) (i + 1) d hd

theorem upperToSnake_ne_nil {l : List Char} (h : l ≠ []) (i : Nat) :
    upperToSnake i l ≠ [] := by
  cases l with
  | nil => cases h rfl
  | cons c t =>
    simp only [upperToSnake]
    by_cases hu : c.isUpper = true <;> by_cases hi : i > 0 <;> simp [hu, hi]

theorem pascal_chars_alnum (v : String) (hv : snakeSegsOk v = true) :
    ∀ c ∈ (PascalCase v).data, c.isAlphanum = true := by
  rw [pascal_data_eq_join v hv]
  unfold snakeSegsOk at hv
  rw [List.all_eq_true] at hv
  intro c hc
  rw [List.mem_join] at hc
  obtain ⟨l, hl, hcl⟩ := hc
  obtain ⟨s, hs, rfl⟩ := List.mem_map.mp hl
  have hseg := hv s hs
  cases s with
  | nil => cases (by simp [segOk] at hseg : False)
  | cons a t =>
    unfold segOk at hseg
    rw [Bool.and_eq_true, List.all_eq_true] at hseg
    rcases List.mem_cons.mp hcl with rfl | hct
    · exact toUpper_isAlphanum hseg.1
    · obtain ⟨x, hx, rfl⟩ := List.mem_map.mp hct
      exact toLower_isAlphanum (hseg.2 x hx)

theorem pascal_ne_nil (v : String) (hv : snakeSegsOk v = true) :
    (PascalCase v).data ≠ [] := by
  rw [pascal_data_eq_join v hv]
  unfold snakeSegsOk at hv
  rw [List.all_eq_true] at hv
  cases hsp : splitOnChar '_' v.data with
  | nil => exact absurd hsp (splitOnChar_ne_nil '_' v.data)
  | cons s rest =>
    have hseg : segOk s = true := hv s (by rw [hsp]; simp)
    cases s with
    | nil => cases (by simp [segOk] at hseg : False)
    | cons a t => simp [capitalizeWord]

theorem mem_intercalate {c : Char} (s : List Char) (l : List (List Char))
    (h : c ∈ List.intercalate s l) : c ∈ s ∨ ∃ x ∈ l, c ∈ x := by
  induction l with
  | nil => cases h
  | cons a rest ih =>
    cases rest with
    | nil =>
      rw [intercalate_singleton] at h
      exact Or.inr ⟨a, by simp, h⟩
    | cons b bs =>
      rw [intercalate_cons_cons] at h
      rcases List.mem_append.mp h with h1 | h2
      · rcases List.mem_append.mp h1 with ha | hs
        · exact Or.inr ⟨a, by simp, ha⟩
        · exact Or.inl hs
      · rcases ih h2 with hs | ⟨x, hx, hcx⟩
        · exact Or.inl hs
        · exact Or.inr ⟨x, by simp [hx], hcx⟩

theorem scanFirst_of_some {α : Type} {f : List Char → Option α} {s : List Char}
    {x : α} (h : f s = some x) : scanFirst f s = some x := by
  cases s with
  | nil => rw [scanFirst, h]
  | cons c t => rw [scanFirst, h]

theorem drop_prefix_len {α : Type} (E rest : List α) (n : Nat) (h : E.length = n) :
    (E ++ rest).drop n = rest := by
  subst h
  exact List.drop_left E rest

theorem isPre_self (p : List Char) : isPre p p = true := by
  have := isPre_append_self p []
  simpa using this

theorem SnakeCase_data (n : String) (h : n.data ≠ []) :
    (SnakeCase n).data = upperToSnake 0 n.data := by
  unfold SnakeCase
  rw [if_neg (by simpa [List.isEmpty_iff] using h)]

theorem enumCode_data (e : EnumDefinition) (h1 : e.name.data ≠ [])
    (h3 : e.values ≠ []) :
    (EnumGenerator e).enumCode.data =
      "export const ".data ++ (e.name.data ++ (" = pgEnum('".data ++
      ((SnakeCase e.name).data ++ ("', [".data ++
      (List.intercalate [',', ' ']
        (e.values.map (fun v => '\'' :: ((PascalCase v).data ++ ['\'']))) ++
      "] as const);".data))))) := by
  unfold EnumGenerator
  rw [if_neg]
  · show ("export const " ++ e.name ++ " = pgEnum('" ++ SnakeCase e.name ++ "', [" ++
      String.intercalate ", " (e.values.map (fun v => "'" ++ PascalCase v ++ "'")) ++
      "] as const);").data = _
    have hfmt : (String.intercalate ", "
        (e.values.map (fun v => "'" ++ PascalCase v ++ "'"))).data =
        List.intercalate [',', ' ']
          (e.values.map (fun v => '\'' :: ((PascalCase v).data ++ ['\'']))) := by
      rw [string_intercalate_data]
      rw [List.map_map]
      congr 1
    show "export const ".data ++ e.name.data ++ " = pgEnum('".data ++
      (SnakeCase e.name).data ++ "', [".data ++
      (String.intercalate ", " (e.values.map (fun v => "'" ++ PascalCase v ++ "'"))).data ++
      "] as const);".data = _
    rw [hfmt]
    simp [List.append_assoc]
  · intro hcond
    rcases Bool.or_eq_true_iff.mp hcond with hb | hb
    · exact h1 (by simpa [List.isEmpty_iff] using hb)
    · have : e.values.length = 0 := by simpa using hb
      exact h3 (List.length_eq_zero.mp this)

theorem takeWhile_append_head_false {P : Char → Bool} (c : Char) (t r : List Char)
    (hc : P c = false) : ((c :: t) ++ r).takeWhile P = [] := by
  rw [List.cons_append]
  exact takeWhile_cons_neg _ hc

theorem matchEnumDeclAt_code (e : EnumDefinition) (h1 : e.name.data ≠ [])
    (h2 : e.name.data.all wchar = true) (h3 : e.values ≠ [])
    (h4 : e.values.all snakeSegsOk = true) :
    matchEnumDeclAt (EnumGenerator e).enumCode.data =
      some (e.name.data, (SnakeCase e.name).data,
        List.intercalate [',', ' ']
          (e.values.map (fun v => '\'' :: ((PascalCase v).data ++ ['\''])))) := by
  rw [enumCode_data e h1 h3]
  have h2' : ∀ c ∈ e.name.data, wchar c = true := List.all_eq_true.mp h2
  have h4' : ∀ v ∈ e.values, snakeSegsOk v = true := List.all_eq_true.mp h4
  set N := e.name.data with hN
  set S := (SnakeCase e.name).data with hS
  set F := List.intercalate [',', ' ']
      (e.values.map (fun v => '\'' :: ((PascalCase v).data ++ ['\'']))) with hF
  have hSdata : S = upperToSnake 0 N := SnakeCase_data e.name h1
  have hSw : ∀ c ∈ S, wchar c = true := by
    rw [hSdata]
    exact upperToSnake_wchar h2' 0
  have hSne : S ≠ [] := by
    rw [hSdata]
    exact upperToSnake_ne_nil h1 0
  have hFclass : ∀ c ∈ F, c = ',' ∨ c = ' ' ∨ c = '\'' ∨ c.isAlphanum = true := by
    intro c hc
    rcases mem_intercalate _ _ hc with hsep | ⟨x, hx, hcx⟩
    · rcases List.mem_cons.mp hsep with rfl | hsep2
      · exact Or.inl rfl
      · rw [List.mem_singleton] at hsep2
        exact Or.inr (Or.inl hsep2)
    · obtain ⟨v, hv, rfl⟩ := List.mem_map.mp hx
      rcases List.mem_cons.mp hcx with rfl | hrest
      · exact Or.inr (Or.inr (Or.inl rfl))
      · rcases List.mem_append.mp hrest with hp | hq
        · exact Or.inr (Or.inr (Or.inr (pascal_chars_alnum v (h4' v hv) c hp)))
        · rw [List.mem_singleton] at hq
          exact Or.inr (Or.inr (Or.inl hq))
  have hFne : F ≠ [] := by
    rw [hF]
    cases hv : e.values with
    | nil => exact absurd hv h3
    | cons v vs =>
      rw [List.map_cons, intercalate_eq_join]
      simp
  -- step-by-step evaluation equalities
  have hpre1 : isPre "export const ".data
      ("export const ".data ++ (N ++ (" = pgEnum('".data ++ (S ++ ("', [".data ++
        (F ++ "] as const);".data)))))) = true := isPre_append_self _ _
  have h13 : ("export const ".data ++ (N ++ (" = pgEnum('".data ++ (S ++ ("', [".data ++
      (F ++ "] as const);".data)))))).drop 13 =
      N ++ (" = pgEnum('".data ++ (S ++ ("', [".data ++ (F ++ "] as const);".data)))) :=
    drop_prefix_len _ _ 13 (by decide)
  have htn : (N ++ (" = pgEnum('".data ++ (S ++ ("', [".data ++
      (F ++ "] as const);".data))))).takeWhile wchar = N := by
    rw [takeWhile_append_all N _ h2']
    rw [show (" = pgEnum('".data : List Char) = ' ' :: "= pgEnum('".data by decide]
    rw [takeWhile_append_head_false ' ' _ _ (by decide : wchar ' ' = false)]
    simp
  have hne : N.isEmpty = false := by
    cases hN2 : N with
    | nil => exact absurd hN2 h1
    | cons a t => rfl
  have h5 : (N ++ (" = pgEnum('".data ++ (S ++ ("', [".data ++
      (F ++ "] as const);".data))))).drop N.length =
      " = pgEnum('".data ++ (S ++ ("', [".data ++ (F ++ "] as const);".data))) :=
    List.drop_left _ _
  have hpre2 : isPre " = pgEnum('".data
      (" = pgEnum('".data ++ (S ++ ("', [".data ++ (F ++ "] as const);".data)))) = true :=
    isPre_append_self _ _
  have h11 : (" = pgEnum('".data ++ (S ++ ("', [".data ++
      (F ++ "] as const);".data)))).drop 11 =
      S ++ ("', [".data ++ (F ++ "] as const);".data)) :=
    drop_prefix_len _ _ 11 (by decide)
  have hSall : ∀ c ∈ S, (decide (c ≠ '\'')) = true := by
    intro c hc
    have hx := wchar_ne (hSw c hc) '\'' ⟨Or.inl (by decide), by decide⟩
    simpa using hx
  have htdb : (S ++ ("', [".data ++ (F ++ "] as const);".data))).takeWhile
      (· ≠ '\'') = S := by
    rw [takeWhile_append_all S _ hSall]
    rw [show ("', [".data : List Char) = '\'' :: ", [".data by decide]
    rw [takeWhile_append_head_false '\'' _ _ (by decide)]
    simp
  have hdbne : S.isEmpty = false := by
    cases hS2 : S with
    | nil => exact absurd hS2 hSne
    | cons a t => rfl
  have h6 : (S ++ ("', [".data ++ (F ++ "] as const);".data))).drop S.length =
      "', [".data ++ (F ++ "] as const);".data) := List.drop_left _ _
  have hpre3 : isPre "', [".data ("', [".data ++ (F ++ "] as const);".data)) = true :=
    isPre_append_self _ _
  have h4d : ("', [".data ++ (F ++ "] as const);".data)).drop 4 =
      F ++ "] as const);".data := drop_prefix_len _ _ 4 (by decide)
  have hFall : ∀ c ∈ F, (decide (c ≠ ']')) = true := by
    intro c hc
    rcases hFclass c hc with rfl | rfl | rfl | halnum
    · decide
    · decide
    · decide
    · have hx := char_alnum_ne halnum ']' (by right; right; left; exact ⟨by decide, by decide⟩)
      simpa using hx
  have htvs : (F ++ "] as const);".data).takeWhile (· ≠ ']') = F := by
    rw [takeWhile_append_all F _ hFall]
    rw [show ("] as const);".data : List Char) = ']' :: " as const);".data by decide]
    rw [takeWhile_cons_neg _ (by decide)]
    simp
  have hvsne : F.isEmpty = false := by
    cases hF2 : F with
    | nil => exact absurd hF2 hFne
    | cons a t => rfl
  have h7 : (F ++ "] as const);".data).drop F.length = "] as const);".data :=
    List.drop_left _ _
  have hpre4 : isPre "] as const);".data "] as const);".data = true := isPre_self _
  simp only [matchEnumDeclAt, hpre1, if_true, h13, htn, hne, Bool.false_eq_true,
    if_false, h5, hpre2, h11, htdb, hdbne, h6, hpre3, h4d, htvs, hvsne, h7, hpre4]

theorem scanQuotedFuel_nil (fuel : Nat) : scanQuotedFuel fuel [] = [] := by
  cases fuel <;> rfl

theorem scanQuotedFuel_step (w r : List Char) (hw : w ≠ [])
    (hq : ∀ c ∈ w, (c = '\'') = False) (fuel : Nat) :
    scanQuotedFuel (fuel + 1) ('\'' :: (w ++ '\'' :: r)) =
      w :: scanQuotedFuel fuel r := by
  simp only [scanQuotedFuel]
  have htw : (w ++ '\'' :: r).takeWhile (· ≠ '\'') = w := by
    rw [takeWhile_append_all w _ (fun c hc => by simp [hq c hc])]
    rw [takeWhile_cons_neg _ (by decide)]
    simp
  rw [htw]
  have hdr : (w ++ '\'' :: r).drop w.length = '\'' :: r := List.drop_left _ _
  rw [hdr]
  have hcond : ('\'' = '\'' && !w.isEmpty && (('\'' :: r).head? == some '\'')) = true := by
    simp
    cases hw2 : w with
    | nil => exact absurd hw2 hw
    | cons a t => simp
  rw [if_pos (by simpa using hcond)]
  simp

theorem scanQuotedFuel_skip (c : Char) (t : List Char) (hc : (c = '\'') = False)
    (fuel : Nat) :
    scanQuotedFuel (fuel + 1) (c :: t) = scanQuotedFuel fuel t := by
  simp only [scanQuotedFuel]
  rw [if_neg]
  intro hx
  rw [Bool.and_eq_true, Bool.and_eq_true] at hx
  have := hx.1.1
  simp [hc] at this

theorem scanQuotedFuel_congr (n : Nat) : ∀ s : List Char, s.length ≤ n →
    ∀ f1 f2, s.length ≤ f1 → s.length ≤ f2 →
      scanQuotedFuel f1 s = scanQuotedFuel f2 s := by
  induction n with
  | zero =>
    intro s hs f1 f2 h1 h2
    have hnil : s = [] := List.length_eq_zero.mp (by omega)
    subst hnil
    rw [scanQuotedFuel_nil, scanQuotedFuel_nil]
  | succ n ih =>
    intro s hs f1 f2 h1 h2
    cases s with
    | nil => rw [scanQuotedFuel_nil, scanQuotedFuel_nil]
    | cons c t =>
      rw [List.length_cons] at hs h1 h2
      cases f1 with
      | zero => omega
      | succ a =>
        cases f2 with
        | zero => omega
        | succ b =>
          simp only [scanQuotedFuel]
          split
          case isTrue hcond =>
            congr 1
            have hlen : ((t.drop (t.takeWhile (· ≠ '\'')).length).tail).length ≤ t.length := by
              rw [List.length_tail, List.length_drop]
              omega
            exact ih _ (by omega) a b (by omega) (by omega)
          case isFalse hcond =>
            exact ih t (by omega) a b (by omega) (by omega)

theorem scanQuotedFuel_eq_scanQuoted (s : List Char) (fuel : Nat)
    (h : s.length ≤ fuel) : scanQuotedFuel fuel s = scanQuoted s :=
  scanQuotedFuel_congr s.length s le_rfl fuel s.length h le_rfl

theorem scanQuoted_cons_skip (c : Char) (t : List Char) (hc : (c = '\'') = False) :
    scanQuoted (c :: t) = scanQuoted t := by
  unfold scanQuoted
  rw [show (c :: t).length = t.length + 1 from rfl]
  rw [scanQuotedFuel_skip c t hc t.length]

theorem scanQuoted_step (w r : List Char) (hw : w ≠ [])
    (hq : ∀ c ∈ w, (c = '\'') = False) :
    scanQuoted ('\'' :: (w ++ '\'' :: r)) = w :: scanQuoted r := by
  unfold scanQuoted
  have hl : ('\'' :: (w ++ '\'' :: r)).length = (w.length + 1 + r.length) + 1 := by
    simp
    omega
  rw [hl, scanQuotedFuel_step w r hw hq _]
  congr 1
  exact scanQuotedFuel_eq_scanQuoted r _ (by omega)

theorem scanQuoted_fmt : ∀ values : List (List Char),
    (∀ w ∈ values, w ≠ [] ∧ ∀ c ∈ w, (c = '\'') = False) →
    scanQuoted (List.intercalate [',', ' ']
      (values.map (fun w => '\'' :: (w ++ ['\''])))) = values := by
  intro values
  induction values with
  | nil => intro h; rfl
  | cons w rest ih =>
    intro h
    obtain ⟨hw, hq⟩ := h w (by simp)
    cases rest with
    | nil =>
      rw [List.map_cons, List.map_nil, intercalate_singleton]
      rw [show (w ++ ['\'']) = w ++ '\'' :: [] from rfl]
      rw [scanQuoted_step w [] hw hq]
      rfl
    | cons w2 rest2 =>
      have hrec : List.intercalate [',', ' ']
          ((w :: w2 :: rest2).map (fun x => '\'' :: (x ++ ['\'']))) =
          '\'' :: (w ++ '\'' :: (',' :: ' ' ::
            List.intercalate [',', ' '] ((w2 :: rest2).map (fun x => '\'' :: (x ++ ['\'']))))) := by
        simp only [List.map_cons]
        rw [intercalate_cons_cons]
        simp [List.append_assoc]
      rw [hrec]
      rw [scanQuoted_step w _ hw hq]
      rw [scanQuoted_cons_skip ',' _ (by simp)]
      rw [scanQuoted_cons_skip ' ' _ (by simp)]
      rw [ih (fun x hx => h x (by simp [hx]))]

theorem decode_value (v : String) (hv : snakeSegsOk v = true) :
    (⟨upperToSnake 0 ((PascalCase v).data.filter (· ≠ '\''))⟩ : String) =
      jsToLower v := by
  have hfil : (PascalCase v).data.filter (· ≠ '\'') = (PascalCase v).data := by
    rw [List.filter_eq_self]
    intro c hc
    have halnum := pascal_chars_alnum v hv c hc
    have hne := char_alnum_ne halnum '\'' (by left; decide)
    simpa using hne
  rw [hfil, pascal_snake_decode v hv]

/-- C7 (amended): for every enum definition with a non-empty word-character
name and non-empty values whose underscore-separated segments are letter-initial
alphanumeric words (in arbitrary casing), decoding the generated enum source
yields the values lower-cased, in the original order. -/
theorem enumValues_roundTrip (e : EnumDefinition) (h1 : e.name.data ≠ [])
    (h2 : e.name.data.all wchar = true) (h3 : e.values ≠ [])
    (h4 : e.values.all snakeSegsOk = true) :
    (parseEnumContent (EnumGenerator e).enumCode).map (fun d => d.values) =
      some (e.values.map jsToLower) := by
  unfold parseEnumContent
  simp only [scanFirst_of_some (matchEnumDeclAt_code e h1 h2 h3 h4)]
  have h4' := List.all_eq_true.mp h4
  have hsq : scanQuoted (List.intercalate [',', ' ']
      (e.values.map (fun v => '\'' :: ((PascalCase v).data ++ ['\''])))) =
      e.values.map (fun v => (PascalCase v).data) := by
    have hmap : e.values.map (fun v => '\'' :: ((PascalCase v).data ++ ['\''])) =
        (e.values.map (fun v => (PascalCase v).data)).map
          (fun w => '\'' :: (w ++ ['\''])) := by
      rw [List.map_map]
      rfl
    rw [hmap]
    apply scanQuoted_fmt
    intro w hw
    obtain ⟨v, hv, rfl⟩ := List.mem_map.mp hw
    refine ⟨pascal_ne_nil v (h4' v hv), ?_⟩
    intro c hc
    have halnum := pascal_chars_alnum v (h4' v hv) c hc
    have hne := char_alnum_ne halnum '\'' (by left; decide)
    simp [hne]
  rw [hsq]
  cases hvv : e.values.map (fun v => (PascalCase v).data) with
  | nil =>
    rw [List.map_eq_nil_iff] at hvv
    exact absurd hvv h3
  | cons p ps =>
    show some ((p :: ps).map
        (fun v => (⟨upperToSnake 0 (v.filter (· ≠ '\''))⟩ : String))) =
      some (e.values.map jsToLower)
    congr 1
    rw [← hvv, List.map_map]
    apply List.map_congr_left
    intro v hv
    exact decode_value v (h4' v hv)

/-- C7 counterexample: for the enum value "ab_2c" the decoded value is
"ab2c" (PascalCase drops the underscore before the digit-initial segment and
re-snaking cannot restore it), while the snake_case canonicalization of
"ab_2c" is "ab_2c" itself. -/
theorem enumValues_roundTrip_cex :
    (parseEnumContent (EnumGenerator ⟨"Status", ["ab_2c"]⟩).enumCode).map
        (fun d => d.values) = some ["ab2c"] ∧
    ["ab_2c"].map SnakeCase = ["ab_2c"] := by
  decide

/-- Instantiation of the round-trip theorem at a concrete enum. -/
theorem enumValues_roundTrip_witness :
    (parseEnumContent (EnumGenerator ⟨"OrderStatus", ["in_progress", "Done"]⟩).enumCode).map
        (fun d => d.values) =
      some (["in_progress", "Done"].map jsToLower) :=
  enumValues_roundTrip ⟨"OrderStatus", ["in_progress", "Done"]⟩ (by decide) (by decide)
    (by decide) (by decide)
